import Mathlib

/-!
Verification of the go-spew value-dumping engine (use-go/go-spew).

This file gives a shallow embedding of the repository's dump/zero/cycle/import
logic and proves or refutes the frozen claims about it.  The embedding follows
the Go sources: `dumpState.dump`, `dumpState.dumpPtr`, `dumpState.dumpSlice`,
`dumpState.isZero`, `dumpState.addImport`, `k8sType`, `Addressable`, `fdump`.
Machine pointers are modelled as natural-number addresses into an explicit
heap; Go panics and the unbounded recursion are made visible by returning an
error value (fuel exhaustion for nontermination, a fault for a panic).
-/

/-- A Go runtime type, as far as the dumper inspects it:
`Type().String()` and `Type().PkgPath()`. -/
structure GoType where
  str : String
  pkgPath : String
deriving DecidableEq, Repr

/-- A Go value as inspected through `reflect`.  Each constructor corresponds to
one `reflect.Kind` group distinguished by the source.  Pointers store an
optional heap address (`none` is a nil pointer); interfaces store the concrete
value they hold (`none` is a nil interface).  Structs additionally carry the
optional results of the two reflective method probes the source performs
(`MarshalJSON` for the quantity special case, and the Stringer capability used
by the method-handling step, whose implementation is outside `src/`). -/
inductive GoVal : Type where
  | invalid : GoVal
  | vbool (ty : GoType) (b : Bool)
  | vint (ty : GoType) (n : Int)
  | vuint (ty : GoType) (isByte : Bool) (n : Nat)
  | vuintptr (ty : GoType) (n : Nat)
  | vfloat (ty : GoType) (wide : Bool) (x : Rat)
  | vcomplex (ty : GoType) (wide : Bool) (re im : Rat)
  | vstring (ty : GoType) (s : String)
  | vslice (ty : GoType) (isNil : Bool) (elems : List GoVal)
  | varray (ty : GoType) (elems : List GoVal)
  | vmap (ty : GoType) (isNil : Bool) (entries : List (GoVal × GoVal))
  | vstruct (ty : GoType) (fields : List (String × GoVal))
      (mjson : Option String) (stringer : Option String)
  | viface (ty : GoType) (inner : Option GoVal)
  | vptr (ty : GoType) (addr : Option Nat)
  | vchan (ty : GoType) (addr : Nat)
  | vfunc (ty : GoType) (addr : Nat)
  | vunsafePtr (ty : GoType) (addr : Nat)

/-- The heap: pointer addresses to pointees. -/
abbrev Heap := List (Nat × GoVal)

def heapGet (H : Heap) (a : Nat) : GoVal :=
  match H.lookup a with
  | some v => v
  | none => .invalid

/-- `v.Type()` as the source reads it; `invalid` never reaches a type query. -/
def typeOf : GoVal → GoType
  | .invalid => ⟨"", ""⟩
  | .vbool t _ => t
  | .vint t _ => t
  | .vuint t _ _ => t
  | .vuintptr t _ => t
  | .vfloat t _ _ => t
  | .vcomplex t _ _ _ => t
  | .vstring t _ => t
  | .vslice t _ _ => t
  | .varray t _ => t
  | .vmap t _ _ => t
  | .vstruct t _ _ _ => t
  | .viface t _ => t
  | .vptr t _ => t
  | .vchan t _ => t
  | .vfunc t _ => t
  | .vunsafePtr t _ => t

/-- `reflect.Value.Index(i)`: `none` models the out-of-range panic. -/
def indexElem : GoVal → Nat → Option GoVal
  | .vslice _ _ es, i => es.get? i
  | .varray _ es, i => es.get? i
  | _, _ => none

/-- Elements of a slice or array (empty otherwise). -/
def elemsOf : GoVal → List GoVal
  | .vslice _ _ es => es
  | .varray _ es => es
  | _ => []

/-- `dumpState.unpackValue` (part_003 lines 73-78): unwrap non-nil interfaces. -/
def unpackValue : GoVal → GoVal
  | .viface _ (some w) => w
  | v => v

/-- `v.Kind() == reflect.Uint8` (byte detection in the slice cases). -/
def byteKind : GoVal → Bool
  | .vuint _ isByte _ => isByte
  | _ => false

/-- `Addressable` (src/spew/addressable.go): true if the type can be prefixed
with `&`. -/
def Addressable : GoVal → Bool
  | .varray _ _ => true
  | .vchan _ _ => true
  | .vfunc _ _ => true
  | .viface _ _ => true
  | .vmap _ _ _ => true
  | .vptr _ _ => true
  | .vslice _ _ _ => true
  | .vstruct _ _ _ _ => true
  | .vunsafePtr _ _ => true
  | _ => false

mutual

/-- `dumpState.isZero` (part_000).  Pointers are handled by the special block
at the top of the source function: nil pointer is zero, non-nil is not.
Structs recurse through `unpackValue` on every field. -/
def isZero : GoVal → Bool
  | .invalid => false
  | .vptr _ a => a.isNone
  | .vbool _ b => b == false
  | .vint _ n => n == 0
  | .vuint _ _ n => n == 0
  | .vfloat _ _ x => x == 0
  | .vslice _ isNil _ => isNil
  | .varray _ es => es.length == 0
  | .vstring _ s => s == ""
  | .viface _ inner => inner.isNone
  | .vmap _ isNil _ => isNil
  | .vstruct _ fields _ _ => goFieldsZero fields
  | .vuintptr _ n => n == 0
  | _ => false

/-- The struct-field loop of `dumpState.isZero`; the interface unwrap of
`unpackValue` is inlined to keep the recursion structural. -/
def goFieldsZero : List (String × GoVal) → Bool
  | [] => true
  | (_, .viface _ (some w)) :: rest => isZero w && goFieldsZero rest
  | (_, fv) :: rest => isZero fv && goFieldsZero rest

end

/-- A Go panic observed by the model. -/
inductive GoFault : Type where
  | indexRange : GoFault
  | negRepeat : GoFault
  | invalidCall : GoFault
deriving DecidableEq, Repr

/-- Abnormal outcome of a dump step: fuel exhaustion models nontermination of
the Go code, a fault models a Go panic. -/
inductive DumpErr : Type where
  | fuelOut : DumpErr
  | fault (f : GoFault) : DumpErr
deriving DecidableEq, Repr

/-- The `ConfigState` fields the dumped code reads (the struct itself is in a
file of this repository outside src/; field set taken from its uses in
part_003). -/
structure ConfigState where
  Indent : String
  MaxDepth : Int
  SortKeys : Bool
  DisableMethods : Bool
  Pkg : String
deriving DecidableEq, Repr

/-- `dumpState` (part_003 lines 50-58), with the writer modelled as an
accumulated string. -/
structure DumpState where
  out : String
  depth : Int
  pointers : List (Nat × Int)
  ignoreNextType : Bool
  ignoreNextIndent : Bool
  imports : List (String × String)
deriving DecidableEq, Repr

def write (s : DumpState) (t : String) : DumpState :=
  { s with out := s.out ++ t }

/-- `bytes.Repeat(indentUnit, depth)`; Go panics on a negative count. -/
def indentStr (cfg : ConfigState) (depth : Int) : String :=
  String.join (List.replicate depth.toNat cfg.Indent)

/-- `dumpState.indent` (part_003 lines 62-68).  A negative depth would make
`bytes.Repeat` panic, modelled as the `negRepeat` fault. -/
def indent (cfg : ConfigState) (s : DumpState) : Except DumpErr DumpState :=
  if s.ignoreNextIndent then .ok { s with ignoreNextIndent := false }
  else if s.depth < 0 then .error (.fault .negRepeat)
  else .ok (write s (indentStr cfg s.depth))

/-- `strings.HasPrefix`. -/
def strStartsWith (s pre : String) : Bool := pre.toList.isPrefixOf s.toList

/-- `strings.HasSuffix` (the anchored regexps reduce to suffix tests). -/
def strEndsWith (s suf : String) : Bool := suf.toList.isSuffixOf s.toList

/-- Does the string contain the character? -/
def strHasChar (s : String) (c : Char) : Bool := s.toList.contains c

/-- Split a character list at every occurrence of a separator character. -/
def splitOnChar (c : Char) : List Char → List (List Char)
  | [] => [[]]
  | x :: r =>
    match splitOnChar c r with
    | [] => [[x]]
    | h :: t => if x = c then [] :: h :: t else (x :: h) :: t

/-- Join segments with `/`. -/
def joinSlash : List (List Char) → List Char
  | [] => []
  | [x] => x
  | x :: r => x ++ '/' :: joinSlash r

/-- The vendor-stripping regexp of `addImport`: `(?m)^.*\/vendor\/` greedily
removes everything through the last `/vendor/` occurrence. -/
def stripVendor (p : String) : String :=
  let sep := "/vendor/".toList
  let cands := p.toList.tails.filterMap
    (fun t => if sep.isPrefixOf t then some (t.drop sep.length) else none)
  match cands.getLast? with
  | some t => String.mk t
  | none => p

/-- `path.Dir` for import paths (no trailing slashes in practice). -/
def pathDir (p : String) : String :=
  match splitOnChar '/' p.toList with
  | [] => "."
  | [_] => "."
  | segs => String.mk (joinSlash segs.dropLast)

/-- `path.Base` for import paths. -/
def pathBase (p : String) : String :=
  if p = "" then "."
  else String.mk ((((splitOnChar '/' p.toList).getLast?).getD []))

/-- `dumpState.addImport` (part_003 lines 80-86): strip vendor prefixes and
record the package with its alias only if the key is not present yet. -/
def addImport (s : DumpState) (pkgPath aliasStr : String) : DumpState :=
  let pkgPath := stripVendor pkgPath
  if (s.imports.lookup pkgPath).isSome then s
  else { s with imports := s.imports ++ [(pkgPath, aliasStr)] }

/-- `k8sType` (part_002): rewrite `v1.`-prefixed type names with the parent
package directory and record dependencies.  The `[]v1.` branch calls
`v.Index(0)`, which panics on an empty slice. -/
def k8sType (s : DumpState) (v : GoVal) : Except DumpErr (String × DumpState) :=
  let ty := typeOf v
  let p :=
    if strStartsWith ty.str "v1." then
      let k8sapi := pathBase (pathDir ty.pkgPath)
      (k8sapi ++ ty.str, addImport s ty.pkgPath (k8sapi ++ "v1"))
    else (ty.str, s)
  let typeStr := p.1
  let s := p.2
  if strStartsWith typeStr "[]v1." then
    match indexElem v 0 with
    | none => .error (.fault .indexRange)
    | some e0 =>
      let ep := (typeOf e0).pkgPath
      let k8sapi := pathBase (pathDir ep)
      let s := addImport s ep (k8sapi ++ "v1")
      let typeStr := "[]" ++ k8sapi ++ "v1." ++ String.mk (typeStr.toList.drop 5)
      let s := addImport s ty.pkgPath ""
      .ok (typeStr, s)
  else
    let s := addImport s ty.pkgPath ""
    .ok (typeStr, s)

/-- The backtick character. -/
def tickC : Char := Char.ofNat 96

/-- The newline character. -/
def nlC : Char := Char.ofNat 10

def tickS : String := String.mk [tickC]

/-- One-pass model of `regexp.MustCompile("(?m)(\x60.*?\x60)").ReplaceAllString(str, ...)`
with the replacement template backtick-plus-quote-group-quote-plus-backtick
(part_003 lines 370-371): every lazily matched same-line pair of backticks is
spliced out into a quoted segment; a backtick with no partner on its line is
left as it is.  The first argument buffers the characters seen since a pending
unmatched backtick (in reverse). -/
def spliceAux : Option (List Char) → List Char → List Char
  | none, [] => []
  | some seg, [] => tickC :: seg.reverse
  | none, c :: r =>
      if c = tickC then spliceAux (some []) r
      else c :: spliceAux none r
  | some seg, c :: r =>
      if c = tickC then
        ([tickC, '+', '"', tickC] ++ seg.reverse ++ [tickC, '"', '+', tickC])
          ++ spliceAux none r
      else if c = nlC then
        (tickC :: (seg.reverse ++ [nlC])) ++ spliceAux none r
      else spliceAux (some (c :: seg)) r

def spliceTicks (s : String) : String :=
  String.mk (spliceAux none s.toList)

/-- Modelled from the Go standard library: `strconv.Quote` escaping for one
character (the library itself is not part of this repository). -/
def quoteChar (c : Char) : String :=
  if c = '"' then "\\\""
  else if c = '\\' then "\\\\"
  else if c = nlC then "\\n"
  else if c = Char.ofNat 9 then "\\t"
  else if c = Char.ofNat 13 then "\\r"
  else if 32 ≤ c.toNat ∧ c.toNat ≤ 126 then String.mk [c]
  else "\\u" ++ String.mk (Nat.toDigits 16 c.toNat)

/-- Modelled from the Go standard library: `strconv.Quote`. -/
def goQuote (s : String) : String :=
  "\"" ++ String.join (s.toList.map quoteChar) ++ "\""

/-- Modelled from the spec: `printBool` (print helpers live in repository code
outside src/), "print the literal numeral". -/
def printBool (b : Bool) : String := if b then "true" else "false"

/-- Modelled from the spec: `printInt`/`printUint`, base-10 numerals. -/
def printIntStr (n : Int) : String := toString n

def printUintStr (n : Nat) : String := toString n

/-- Modelled from the spec: `printFloat`, the literal numeral of the value. -/
def printFloatStr (x : Rat) : String := toString x

/-- Modelled from the spec: `printComplex`, a complex literal. -/
def printComplexStr (re im : Rat) : String :=
  "(" ++ toString re ++ "+" ++ toString im ++ "i)"

/-- Modelled from the spec: `printHexPtr`, a hexadecimal address literal. -/
def printHexPtr (n : Nat) : String := "0x" ++ String.mk (Nat.toDigits 16 n)

/-- Modelled from the spec: the `invalidAngleBytes` marker constant (constants
live in repository code outside src/). -/
def invalidMark : String := "<invalid>"

/-- Modelled from the spec: the circular-reference marker (`circularBytes`). -/
def circularMark : String := "<circular>"

/-- Modelled from the spec: the max-depth truncation marker
(`maxNewlineBytes`). -/
def maxMark : String := "<max depth reached>\n"

/-- Modelled from the spec: `handleMethods` (repository code outside src/)
invokes a value's own textual-rendering capability and emits it quoted; the
capability is carried on struct values in this model. -/
def handleMethods : GoVal → Option String
  | .vstruct _ _ _ (some s) => some (goQuote s)
  | _ => none

/-- `v.MethodByName("MarshalJSON")` probe result for the quantity special
case. -/
def marshalJSONOf : GoVal → Option String
  | .vstruct _ _ m _ => m
  | _ => none

/-- Modelled from the spec: the measure `sortValues` (repository code outside
src/) orders map keys by, "collect all keys, optionally sort them for
determinism". -/
def sortKeyStr : GoVal → String
  | .vbool _ b => "b" ++ toString b
  | .vint _ n => "i" ++ toString n
  | .vuint _ _ n => "u" ++ toString n
  | .vuintptr _ n => "p" ++ toString n
  | .vfloat _ _ x => "f" ++ toString x
  | .vstring _ s => "s" ++ s
  | _ => ""

/-- Modelled from the spec: sorting the map entries by the key measure (Go
sorts the key array and then indexes the map; with the distinct keys of a Go
map this is the same as sorting the entries). -/
def sortEntries (es : List (GoVal × GoVal)) : List (GoVal × GoVal) :=
  es.insertionSort (fun a b => sortKeyStr a.1 ≤ sortKeyStr b.1)

/-- Go map assignment `m[k] = b` on an association list. -/
def assocSet {κ β : Type} [BEq κ] (l : List (κ × β)) (k : κ) (b : β) :
    List (κ × β) :=
  if (l.lookup k).isSome then l.map (fun p => if p.1 == k then (k, b) else p)
  else l ++ [(k, b)]

/-- Result of the pointer/interface indirection walk inside
`dumpState.dumpPtr` (part_003 lines 104-131). -/
structure WalkRes where
  nilFound : Bool
  cycleFound : Bool
  indirects : Nat
  ve : GoVal
  ptrs : List (Nat × Int)
  chain : List Nat

/-- Is the argument a non-nil interface kind (the method step skips kind
`Interface`)? -/
def isIfaceKind : GoVal → Bool
  | .viface _ _ => true
  | _ => false

/-- `p.2 >= depth`, the purge condition of `dumpPtr` (part_003 lines 92-96):
entries at or below the current depth are removed. -/
def purgePtrs (ps : List (Nat × Int)) (depth : Int) : List (Nat × Int) :=
  ps.filter (fun p => !(p.2 ≥ depth))

/-- `vt.ConvertibleTo(uint8Type)` for the cgo conversion path. -/
def convertibleToByte : GoVal → Bool
  | .vint _ _ => true
  | .vuint _ _ _ => true
  | .vuintptr _ _ => true
  | .vfloat _ _ _ => true
  | _ => false

/-- `uint8(vv.Convert(uint8Type).Uint())`. -/
def byteValue : GoVal → Nat
  | .vint _ n => ((n % 256).toNat)
  | .vuint _ _ n => n % 256
  | .vuintptr _ n => n % 256
  | .vfloat _ _ x => (x.num.toNat / x.den) % 256
  | _ => 0

/-- Is the element type one of the cgo char types (the three anchored regexps
at part_003 lines 37-46 all reduce to suffix tests)? -/
def cgoCharType (ts : String) : Bool :=
  strEndsWith ts "._Ctype_char" || strEndsWith ts "._Ctype_unsignedchar" ||
    strEndsWith ts "._Ctype_uint8_t"

/-- `strings.TrimRight(str, d.cs.Indent)`: drop trailing characters that occur
in the cutset. -/
def trimRightCutset (s cutset : String) : String :=
  String.mk (((s.toList.reverse).dropWhile (fun c => cutset.toList.contains c)).reverse)

/-- Sequencing on `Except` written as an explicit match (the Go code has no
error channel; an error here is a modelled panic or fuel exhaustion that
aborts the run). -/
def exBind {α β : Type} (x : Except DumpErr α) (f : α → Except DumpErr β) :
    Except DumpErr β :=
  match x with
  | .error e => .error e
  | .ok a => f a

/-- The per-element loop at the end of `dumpState.dumpSlice` (part_003 lines
242-245), parameterized by the recursive dump. -/
def dumpItemsGo (dmp : DumpState → GoVal → Except DumpErr DumpState)
    (s : DumpState) : List GoVal → Except DumpErr DumpState
  | [] => .ok s
  | e :: rest =>
    exBind (dmp s (unpackValue e)) fun s =>
      dumpItemsGo dmp (write s ",\n") rest

/-- `dumpState.dumpSlice` (part_003 lines 166-246), parameterized by the
recursive dump.  In a normal build `UnsafeDisabled` is false and the
byte-slice view succeeds; the copy-and-convert fallback produces the same
bytes. -/
def dumpSliceGo (dmp : DumpState → GoVal → Except DumpErr DumpState)
    (cfg : ConfigState) (s : DumpState) (v : GoVal) :
    Except DumpErr DumpState :=
  let elems := elemsOf v
  let buf : Option (List Nat) :=
    match elems with
    | [] => none
    | e0 :: _ =>
      let vts := (typeOf e0).str
      if cgoCharType vts then
        if convertibleToByte e0 then some (elems.map byteValue) else none
      else if byteKind e0 then some (elems.map byteValue)
      else none
  match buf with
  | some bytes =>
    let str := tickS ++ String.mk (bytes.map Char.ofNat) ++ tickS
    .ok (write s (trimRightCutset str cfg.Indent))
  | none => dumpItemsGo dmp s elems

/-- The map-entry loop of the `reflect.Map` case of `dumpState.dump`
(part_003 lines 404-410), parameterized by the recursive dump. -/
def dumpMapEntriesGo (dmp : DumpState → GoVal → Except DumpErr DumpState)
    (s : DumpState) : List (GoVal × GoVal) → Except DumpErr DumpState
  | [] => .ok s
  | (k, val) :: rest =>
    exBind (dmp s (unpackValue k)) fun s =>
      exBind (dmp { write s ": " with ignoreNextIndent := true }
          (unpackValue val)) fun s =>
        dumpMapEntriesGo dmp (write s ",\n") rest

/-- The struct-field loop of the `reflect.Struct` case of `dumpState.dump`
(part_003 lines 424-439), parameterized by the recursive dump. -/
def dumpFieldsGo (dmp : DumpState → GoVal → Except DumpErr DumpState)
    (cfg : ConfigState) (s : DumpState) :
    List (String × GoVal) → Except DumpErr DumpState
  | [] => .ok s
  | (name, fv) :: rest =>
    if isZero fv then dumpFieldsGo dmp cfg s rest
    else
      exBind (indent cfg s) fun s =>
        exBind (dmp { write s (name ++ ": ") with ignoreNextIndent := true }
            (unpackValue fv)) fun s =>
          dumpFieldsGo dmp cfg (write s ",\n") rest

/-- The shared braced-block logic of the `reflect.Slice`/`reflect.Array` case
of `dumpState.dump` (part_003 lines 346-365). -/
def sliceBracesGo (dmp : DumpState → GoVal → Except DumpErr DumpState)
    (cfg : ConfigState) (s : DumpState) (v : GoVal) (byteString : Bool) :
    Except DumpErr DumpState :=
  let s := write s (if byteString then "(" else "\x7b\n")
  let s := { s with depth := s.depth + 1 }
  exBind
    (if cfg.MaxDepth ≠ 0 ∧ s.depth > cfg.MaxDepth then
      exBind (indent cfg s) fun s => .ok (write s maxMark)
    else dumpSliceGo dmp cfg s v) fun s =>
  let s := { s with depth := s.depth - 1 }
  exBind (if !byteString then indent cfg s else .ok s) fun s =>
  .ok (write s (if byteString then ")" else "\x7d"))

/-- One step of the indirection walk of `dumpState.dumpPtr` (part_003 lines
104-131): dereference pointers and unpack interfaces down the chain while
detecting circular references; `next` continues the loop. -/
def walkChainGo
    (next : List (Nat × Int) → Int → List Nat → Nat → GoVal →
      Except DumpErr WalkRes)
    (H : Heap) (ptrs : List (Nat × Int)) (depth : Int) (chain : List Nat)
    (indirects : Nat) (ve : GoVal) : Except DumpErr WalkRes :=
  match ve with
  | .vptr _ none => .ok ⟨true, false, indirects, ve, ptrs, chain⟩
  | .vptr ty (some addr) =>
    let indirects := indirects + 1
    let chain := chain ++ [addr]
    let cyc : Bool :=
      match ptrs.lookup addr with
      | some pd => decide (pd < depth)
      | none => false
    if cyc then
      .ok ⟨false, true, indirects - 1, .vptr ty (some addr), ptrs, chain⟩
    else
      let ptrs := assocSet ptrs addr depth
      match heapGet H addr with
      | .viface t none => .ok ⟨true, false, indirects, .viface t none, ptrs, chain⟩
      | .viface _ (some w) => next ptrs depth chain indirects w
      | w => next ptrs depth chain indirects w
  | _ => .ok ⟨false, false, indirects, ve, ptrs, chain⟩

/-- `dumpState.dumpPtr` (part_003 lines 89-162), parameterized by the
indirection walk and the recursive dump. -/
def dumpPtrGo
    (wc : List (Nat × Int) → Int → List Nat → Nat → GoVal →
      Except DumpErr WalkRes)
    (dmp : DumpState → GoVal → Except DumpErr DumpState)
    (s : DumpState) (v : GoVal) : Except DumpErr DumpState :=
  let s := { s with pointers := purgePtrs s.pointers s.depth }
  exBind (wc s.pointers s.depth [] 0 v) fun r =>
  let s := { s with pointers := r.ptrs }
  if r.nilFound then .ok (write s "nil")
  else
    let addressable := Addressable r.ve
    exBind
      (if !addressable then
        .ok (write s ("func(x " ++ (typeOf r.ve).str ++ ") *"
          ++ (typeOf r.ve).str ++ " \x7breturn &x \x7d("))
      else
        let s := if s.depth = 0 then write s "var _ = " else s
        let s := write s (String.join (List.replicate r.indirects "&"))
        exBind (k8sType s r.ve) fun p => .ok (write p.2 p.1)) fun s =>
    exBind
      (if r.cycleFound then .ok (write s circularMark)
      else dmp { s with ignoreNextType := true } r.ve) fun s =>
    if !addressable then .ok (write s ")") else .ok s

/-- The kind switch of the type-print step of `dumpState.dump` (part_003
lines 305-333): emit the (possibly k8s-rewritten) type name and report
whether the value will be printed as a byte string. -/
def typeNamePrint (s : DumpState) (v : GoVal) :
    Except DumpErr (DumpState × Bool) :=
  match v with
  | .vslice _ _ _ | .varray _ _ =>
    (match indexElem v 0 with
    | none => .error (.fault .indexRange)
    | some e0 =>
      if byteKind e0 then .ok (write s "[]byte", true)
      else exBind (k8sType s v) fun q => .ok (write q.2 q.1, false))
  | .vmap _ _ _ =>
    exBind (k8sType s v) fun q => .ok (write q.2 q.1, false)
  | .viface _ _ | .vstruct _ _ _ _ =>
    if (typeOf v).str = "resource.Quantity" ∧ ¬isZero v then
      let s := addImport s "k8s.io/apimachinery/pkg/api/resource" ""
      match marshalJSONOf v with
      | some txt =>
        .ok (write s ("resource.MustParse(" ++ txt ++ ")"), true)
      | none => .error (.fault .invalidCall)
    else exBind (k8sType s v) fun q => .ok (write q.2 q.1, false)
  | _ => .ok (s, false)

/-- The type-print step at the head of the default branch of
`dumpState.dump` (part_003 lines 301-338): unless `ignoreNextType` is set,
indent and emit the type name followed by a space.  The returned flag is the
`byteString` flag of the source. -/
def typeStep (cfg : ConfigState) (s : DumpState) (v : GoVal) :
    Except DumpErr (DumpState × Bool) :=
  if s.ignoreNextType then .ok (s, false)
  else
    exBind (indent cfg s) fun s =>
    exBind (typeNamePrint s v) fun p =>
    if p.2 then .ok p else .ok (write p.1 " ", false)

/-- `dumpState.dump` (part_003 lines 252-461), parameterized by the
pointer hand-off and the recursive dump for nested values. -/
def dumpGo
    (dp : DumpState → GoVal → Except DumpErr DumpState)
    (dmp : DumpState → GoVal → Except DumpErr DumpState)
    (cfg : ConfigState) (s : DumpState) (v : GoVal) :
    Except DumpErr DumpState :=
  match v with
  | .invalid => .ok (write s invalidMark)
  | .vptr ty a => exBind (indent cfg s) fun s => dp s (.vptr ty a)
  | _ =>
    -- print type information unless already handled elsewhere
    exBind (typeStep cfg s v) fun p =>
    let s : DumpState := { p.1 with ignoreNextType := false }
    let byteString := p.2
    -- invoke Stringer/error interfaces if enabled
    let handled : Option String :=
      if ¬cfg.DisableMethods ∧ ¬isIfaceKind v then handleMethods v else none
    match handled with
    | some txt => .ok (write s txt)
    | none =>
      match v with
      | .vbool _ b => .ok (write s (printBool b))
      | .vint _ i => .ok (write s (printIntStr i))
      | .vuint _ _ u => .ok (write s (printUintStr u))
      | .vfloat _ _ x => .ok (write s (printFloatStr x))
      | .vcomplex _ _ re im => .ok (write s (printComplexStr re im))
      | .vslice _ isNil _ =>
        if isNil then .ok (write s "nil")
        else sliceBracesGo dmp cfg s v byteString
      | .varray _ _ => sliceBracesGo dmp cfg s v byteString
      | .vstring _ str =>
        if strHasChar str nlC then
          .ok (write s (tickS ++ spliceTicks str ++ tickS))
        else .ok (write s (goQuote str))
      | .viface _ inner =>
        if inner.isNone then .ok (write s "nil") else .ok s
      | .vmap _ isNil entries =>
        if isNil then .ok (write s "nil")
        else
          let s := write s "\x7b\n"
          let s := { s with depth := s.depth + 1 }
          exBind
            (if cfg.MaxDepth ≠ 0 ∧ s.depth > cfg.MaxDepth then
              exBind (indent cfg s) fun s => .ok (write s maxMark)
            else
              dumpMapEntriesGo dmp s
                (if cfg.SortKeys then sortEntries entries else entries))
            fun s =>
          let s := { s with depth := s.depth - 1 }
          exBind (indent cfg s) fun s => .ok (write s "\x7d")
      | .vstruct ty fields _ _ =>
        if ty.str ≠ "resource.Quantity" then
          let s := write s "\x7b\n"
          let s := { s with depth := s.depth + 1 }
          exBind
            (if cfg.MaxDepth ≠ 0 ∧ s.depth > cfg.MaxDepth then
              exBind (indent cfg s) fun s => .ok (write s maxMark)
            else dumpFieldsGo dmp cfg s fields) fun s =>
          let s := { s with depth := s.depth - 1 }
          exBind (indent cfg s) fun s => .ok (write s "\x7d")
        else .ok s
      | .vuintptr _ u => .ok (write s (printHexPtr u))
      | .vchan _ a => .ok (write s (printHexPtr a))
      | .vfunc _ a => .ok (write s (printHexPtr a))
      | .vunsafePtr _ a => .ok (write s (printHexPtr a))
      | .invalid => .ok s
      | .vptr _ _ => .ok s

/-- The recursive engine as a package of its three genuinely recursive
entries, indexed by fuel below. -/
structure DumpFns where
  walkChain : Heap → List (Nat × Int) → Int → List Nat → Nat → GoVal →
    Except DumpErr WalkRes
  dumpPtr : Heap → ConfigState → DumpState → GoVal → Except DumpErr DumpState
  dump : Heap → ConfigState → DumpState → GoVal → Except DumpErr DumpState

/-- The empty engine: every call is out of fuel. -/
def bottomFns : DumpFns where
  walkChain := fun _ _ _ _ _ _ => .error .fuelOut
  dumpPtr := fun _ _ _ _ => .error .fuelOut
  dump := fun _ _ _ _ => .error .fuelOut

/-- One more level of recursion on top of an engine. -/
def stepFns (F : DumpFns) : DumpFns where
  walkChain := fun H => walkChainGo (F.walkChain H) H
  dumpPtr := fun H cfg =>
    dumpPtrGo (F.walkChain H) (F.dump H cfg)
  dump := fun H cfg =>
    dumpGo (F.dumpPtr H cfg) (F.dump H cfg) cfg

/-- The engine with the given amount of fuel. -/
def fnsAt : Nat → DumpFns
  | 0 => bottomFns
  | n + 1 => stepFns (fnsAt n)

/-- The indirection walk of `dumpState.dumpPtr` with fuel. -/
def walkChain (fuel : Nat) (H : Heap) (ptrs : List (Nat × Int)) (depth : Int)
    (chain : List Nat) (indirects : Nat) (ve : GoVal) :
    Except DumpErr WalkRes :=
  (fnsAt fuel).walkChain H ptrs depth chain indirects ve

/-- `dumpState.dumpPtr` with fuel. -/
def dumpPtr (fuel : Nat) (H : Heap) (cfg : ConfigState) (s : DumpState)
    (v : GoVal) : Except DumpErr DumpState :=
  (fnsAt fuel).dumpPtr H cfg s v

/-- `dumpState.dump` with fuel. -/
def dump (fuel : Nat) (H : Heap) (cfg : ConfigState) (s : DumpState)
    (v : GoVal) : Except DumpErr DumpState :=
  (fnsAt fuel).dump H cfg s v

/-- One non-nil top-level argument of the session driver: the heap it lives in
and the value. -/
structure DumpArg where
  H : Heap
  v : GoVal

/-- The fresh per-value state created by `fdump` (part_003 lines 474-476). -/
def initState : DumpState :=
  { out := "", depth := 0, pointers := [], ignoreNextType := false,
    ignoreNextIndent := false, imports := [] }

/-- The merge loop of `fdump` (part_003 lines 480-482):
plain Go map assignment for every entry of the per-value set. -/
def mergeImports (acc l : List (String × String)) : List (String × String) :=
  l.foldl (fun acc kv => assocSet acc kv.1 kv.2) acc

/-- The per-argument loop of `fdump` (part_003 lines 469-484): skip nil
arguments, dump each value with a fresh state, append a newline, and merge
the dependency sets. -/
def fdumpArgs (fuel : Nat) (cfg : ConfigState)
    (acc : List String × List (String × String)) :
    List (Option DumpArg) → Except DumpErr (List String × List (String × String))
  | [] => .ok acc
  | none :: rest => fdumpArgs fuel cfg acc rest
  | some a :: rest => do
    let d ← dump fuel a.H cfg initState a.v
    fdumpArgs fuel cfg
      (acc.1 ++ [d.out ++ "\n"], mergeImports acc.2 d.imports) rest

/-- The import-block emission of `fdump` (part_003 lines 490-505) applied to
one enumeration of the merged map.  Go ranges over the map in an unspecified
order, so the enumeration is an explicit parameter; theorems quantify over
permutations of the merged entries. -/
def emitImports (l : List (String × String)) : String :=
  "import (" ++
    String.join (l.map (fun p =>
      if p.1 = "" then ""
      else if p.2 = "" then "\n\t\"" ++ p.1 ++ "\""
      else "\n\t" ++ p.2 ++ " \"" ++ p.1 ++ "\"")) ++
    "\n)\n\n"

/-- `fdump` (part_003 lines 465-510): dump every argument, then assemble
package header, import block and the concatenated literals. -/
def fdumpModel (fuel : Nat) (cfg : ConfigState) (args : List (Option DumpArg))
    (enum : List (String × String)) : Except DumpErr String := do
  let p ← fdumpArgs fuel cfg ([], []) args
  let header := if cfg.Pkg ≠ "" then "package " ++ cfg.Pkg ++ "\n\n" else ""
  let importBlock := if p.2.length > 0 then emitImports enum else ""
  .ok (header ++ importBlock ++ String.join p.1)

/-- The output of a successful dump, empty on failure (projection helper). -/
def outOf : Except DumpErr DumpState → String
  | .ok s => s.out
  | .error _ => ""

def isOkB {α β : Type} : Except α β → Bool
  | .ok _ => true
  | .error _ => false

/-- Substring test (used to observe markers in an output). -/
def strContains (hay needle : String) : Bool :=
  (hay.toList.tails).any (fun t => needle.toList.isPrefixOf t)

mutual

/-- The Zero-Value Detector exactly as claim C4 states it: the enumerated
shapes, recursive structs through unwrapped interfaces, and every other shape
(pointers included, since the claim does not list them) reported non-zero. -/
def isZeroClaimC4 : GoVal → Bool
  | .invalid => false
  | .vbool _ b => b == false
  | .vint _ n => n == 0
  | .vuint _ _ n => n == 0
  | .vuintptr _ n => n == 0
  | .vfloat _ _ x => x == 0
  | .vstring _ s => s == ""
  | .vslice _ isNil _ => isNil
  | .varray _ es => es.length == 0
  | .viface _ i => i.isNone
  | .vmap _ isNil _ => isNil
  | .vstruct _ fields _ _ => claimFieldsZero fields
  | _ => false

def claimFieldsZero : List (String × GoVal) → Bool
  | [] => true
  | (_, .viface _ (some w)) :: rest => isZeroClaimC4 w && claimFieldsZero rest
  | (_, fv) :: rest => isZeroClaimC4 fv && claimFieldsZero rest

end

mutual

/-- Claim C4 amended: as stated, plus the pointer case the source handles
specially (nil pointer is zero, non-nil pointer is not). -/
def isZeroAmended : GoVal → Bool
  | .invalid => false
  | .vptr _ a => a.isNone
  | .vbool _ b => b == false
  | .vint _ n => n == 0
  | .vuint _ _ n => n == 0
  | .vuintptr _ n => n == 0
  | .vfloat _ _ x => x == 0
  | .vstring _ s => s == ""
  | .vslice _ isNil _ => isNil
  | .varray _ es => es.length == 0
  | .viface _ i => i.isNone
  | .vmap _ isNil _ => isNil
  | .vstruct _ fields _ _ => amendedFieldsZero fields
  | _ => false

def amendedFieldsZero : List (String × GoVal) → Bool
  | [] => true
  | (_, .viface _ (some w)) :: rest => isZeroAmended w && amendedFieldsZero rest
  | (_, fv) :: rest => isZeroAmended fv && amendedFieldsZero rest

end

/-- Claim C7, spec side: "for each field in declaration order ... otherwise
indent, emit the field's name, colon-space, then the unpacked field value with
suppress-indent set; separate entries" — applied to the already-filtered
(non-zero) fields. -/
def specFieldsRender (dmp : DumpState → GoVal → Except DumpErr DumpState)
    (cfg : ConfigState) (s : DumpState) :
    (l : List (String × GoVal)) → Except DumpErr DumpState
  | [] => .ok s
  | (name, fv) :: rest =>
    exBind (indent cfg s) fun s =>
      exBind (dmp { write s (name ++ ": ") with ignoreNextIndent := true }
          (unpackValue fv)) fun s =>
        specFieldsRender dmp cfg (write s ",\n") rest

/-- Claim C7, spec side: the braced block of a non-quantity struct — open a
braced block, increment depth, render exactly the fields the Zero-Value
Detector reports non-zero, in declaration order — each as its name,
colon-space and unpacked value with the suppress-indent flag set, followed by
a separator — and close brace after decrementing depth. -/
def specStructRender (dmp : DumpState → GoVal → Except DumpErr DumpState)
    (cfg : ConfigState) (s : DumpState) (fields : List (String × GoVal)) :
    Except DumpErr DumpState :=
  let s := write s "\x7b\n"
  let s := { s with depth := s.depth + 1 }
  exBind
    (if cfg.MaxDepth ≠ 0 ∧ s.depth > cfg.MaxDepth then
      exBind (indent cfg s) fun s => .ok (write s maxMark)
    else
      specFieldsRender dmp cfg s (fields.filter (fun f => ¬isZero f.2)))
    fun s =>
  let s := { s with depth := s.depth - 1 }
  exBind (indent cfg s) fun s =>
  .ok (write s "\x7d")

/-- Unescape one quoted-string escape character (inverse of the escapes the
splice and `quoteChar` can produce). -/
def unescChar (c : Char) : Char :=
  if c = 'n' then nlC
  else if c = 't' then Char.ofNat 9
  else if c = 'r' then Char.ofNat 13
  else c

/-- States of the parser for the expressions the dumper emits for
newline-containing strings: raw literals (backtick-delimited) spliced with
quoted segments via `+`. -/
inductive PMode : Type where
  | raw : PMode
  | afterRaw : PMode
  | expQuote : PMode
  | quoted : PMode
  | afterQuote : PMode
  | expTick : PMode
  | escape : PMode
deriving DecidableEq, Repr

/-- Single-character-step parser for a Go string-concatenation expression of
raw and quoted segments; the input starts right after an opening backtick (in
`raw` mode) and the value of the expression is returned.  `none` means the
expression is not syntactically valid. -/
def parseSM : PMode → List Char → Option (List Char)
  | .raw, [] => none
  | .raw, c :: r =>
    if c = tickC then parseSM .afterRaw r
    else (parseSM .raw r).map (fun l => c :: l)
  | .afterRaw, [] => some []
  | .afterRaw, c :: r => if c = '+' then parseSM .expQuote r else none
  | .expQuote, [] => none
  | .expQuote, c :: r => if c = '"' then parseSM .quoted r else none
  | .quoted, [] => none
  | .quoted, c :: r =>
    if c = '"' then parseSM .afterQuote r
    else if c = '\\' then parseSM .escape r
    else if c = nlC then none
    else (parseSM .quoted r).map (fun l => c :: l)
  | .afterQuote, [] => none
  | .afterQuote, c :: r => if c = '+' then parseSM .expTick r else none
  | .expTick, [] => none
  | .expTick, c :: r => if c = tickC then parseSM .raw r else none
  | .escape, [] => none
  | .escape, e :: r => (parseSM .quoted r).map (fun l => unescChar e :: l)

/-- Raw-literal mode of the parser. -/
def rawMode (l : List Char) : Option (List Char) := parseSM .raw l

/-- Quoted-literal mode of the parser. -/
def quotedMode (l : List Char) : Option (List Char) := parseSM .quoted l

/-- Evaluate a Go expression consisting of raw string literals spliced with
quoted segments (the shape the dumper emits for newline-containing strings):
`none` means the expression is not syntactically valid. -/
def evalGoStrExpr (l : List Char) : Option (List Char) :=
  match l with
  | c :: r => if c = tickC then rawMode r else none
  | [] => none

/-- May this character sit inside a quoted splice segment verbatim? -/
def segCleanChar (c : Char) : Bool :=
  c ≠ '"' && c ≠ '\\' && c ≠ nlC

/-- Mirror of `spliceAux` deciding whether the splice output is a valid
expression: every backtick must find a partner on its own line, and the
characters between a pair must survive verbatim inside a quoted segment. -/
def spliceOKAux : Option (List Char) → List Char → Bool
  | none, [] => true
  | some _, [] => false
  | none, c :: r =>
      if c = tickC then spliceOKAux (some []) r else spliceOKAux none r
  | some seg, c :: r =>
      if c = tickC then seg.all segCleanChar && spliceOKAux none r
      else if c = nlC then false
      else spliceOKAux (some (c :: seg)) r

def spliceOK (s : String) : Bool := spliceOKAux none s.toList

/-! Concrete fixtures used by several theorems. -/

/-- A plain configuration: tab indent, no max depth, sorted keys, methods
disabled, no package header. -/
def cfgD : ConfigState :=
  { Indent := "\t", MaxDepth := 0, SortKeys := true, DisableMethods := true,
    Pkg := "" }

def tyIntSlice : GoType := ⟨"[]int", ""⟩

def tyInt : GoType := ⟨"int", ""⟩

def tyStr : GoType := ⟨"string", ""⟩

/-- The self-referential pointer type `type P *P` with `p = &p`. -/
def tyP : GoType := ⟨"main.P", "main"⟩

def selfVal : GoVal := .vptr tyP (some 1)

def selfHeap : Heap := [(1, selfVal)]

def tyT : GoType := ⟨"main.T", "main"⟩

def tyPT : GoType := ⟨"*main.T", ""⟩

/-- Two struct nodes forming a pointer cycle: `a.Next = &b`, `b.Next = &a`
(spec scenario 4). -/
def cycHeap : Heap :=
  [(1, .vstruct tyT [("Next", .vptr tyPT (some 2))] none none),
   (2, .vstruct tyT [("Next", .vptr tyPT (some 1))] none none)]

def cycVal : GoVal := .vptr tyPT (some 1)

/-- A newline-containing string with a single, unpaired backtick. -/
def badStr : String := "a" ++ tickS ++ "b\nc"

/-- A newline-containing string whose backticks pair up on one line. -/
def okStr : String := "x" ++ tickS ++ "y" ++ tickS ++ "z\n"

/-- A dump state one level deep with two recorded pointers: one from an
ancestor (depth 0) and one from an already-exited sibling branch (depth 2). -/
def cw2s : DumpState :=
  { initState with depth := 1, pointers := [(5, 0), (7, 2)] }

/-- A heap whose address 9 holds a nil pointer, so the indirection chain
started at `&9` hits a nil at its second step. -/
def cw2H : Heap := [(9, .vptr tyPT none)]

def cw2v : GoVal := .vptr tyPT (some 9)

/-- The walk result for `cw2v` over `cw2H`: nil found, no cycle, address 9
recorded at the current depth 1 next to the surviving ancestor record. -/
def cw2r : WalkRes := ⟨true, false, 1, .vptr tyPT none, [(5, 0), (9, 1)], [9]⟩

/-- The walk result for `cycVal` over `cycHeap` at depth 0: one indirection to
the addressable struct node, no nil, no cycle at this level. -/
def cw10r : WalkRes :=
  ⟨false, false, 1, .vstruct tyT [("Next", .vptr tyPT (some 2))] none none,
   [(1, 0)], [1]⟩

/-- The spec scenario-1 struct fields: two non-zero fields in declaration
order and a zero field that must be skipped. -/
def c7fields : List (String × GoVal) :=
  [("Name", .vstring tyStr "x"), ("Count", .vint tyInt 3),
   ("Zero", .vint tyInt 0)]

/-- The functional argument of the engine preserves the depth counter on
every successful call (claim C9's symmetry, as a predicate on the
parameterized bodies). -/
def DepthPres (f : DumpState → GoVal → Except DumpErr DumpState) : Prop :=
  ∀ s v s', f s v = .ok s' → s'.depth = s.depth

/-- Started at a non-negative depth, the call never commits the
negative-repeat fault (the `bytes.Repeat` panic a negative depth would
cause in `indent`). -/
def NoNegFault (f : DumpState → GoVal → Except DumpErr DumpState) : Prop :=
  ∀ s v, 0 ≤ s.depth → f s v ≠ .error (.fault .negRepeat)

/-- The dump state after dumping the plain int 7 from the initial state. -/
def w9 : DumpState := ⟨" 7", 0, [], false, false, []⟩

/-- Two zero-field struct values whose `v1.`-prefixed type names come from
two different k8s packages, so dumping both records two imports. -/
def tyV1A : GoType := ⟨"v1.A", "k8s.io/api/core/v1"⟩

def tyV1B : GoType := ⟨"v1.B", "k8s.io/api/apps/v1"⟩

def cw6args : List (Option DumpArg) :=
  [some ⟨[], .vstruct tyV1A [] none none⟩,
   some ⟨[], .vstruct tyV1B [] none none⟩]

/-- The dump configuration with a package header, sorted keys and methods
disabled. -/
def cfgP : ConfigState := ⟨"\t", 0, true, true, "main"⟩

/-- The dependency set `fdump` merges for `cw6args`. -/
def cw6merged : List (String × String) :=
  [("k8s.io/api/core/v1", "corev1"), ("k8s.io/api/apps/v1", "appsv1")]

def tyMapII : GoType := ⟨"map[int]int", ""⟩

/-- The same two map entries in two insertion orders. -/
def cw6es1 : List (GoVal × GoVal) :=
  [(.vint tyInt 2, .vint tyInt 20), (.vint tyInt 1, .vint tyInt 10)]

def cw6es2 : List (GoVal × GoVal) :=
  [(.vint tyInt 1, .vint tyInt 10), (.vint tyInt 2, .vint tyInt 20)]

/-! Theorems. -/

@[simp]
theorem exBind_ok {α β : Type} (a : α) (f : α → Except DumpErr β) :
    exBind (.ok a) f = f a := rfl

@[simp]
theorem exBind_error {α β : Type} (e : DumpErr) (f : α → Except DumpErr β) :
    exBind (.error e) f = .error e := rfl

theorem goFieldsZero_cons (n : String) (fv : GoVal) (rest : List (String × GoVal)) :
    goFieldsZero ((n, fv) :: rest) = (isZero (unpackValue fv) && goFieldsZero rest) := by
  cases fv <;> try rfl
  rename_i inner
  cases inner <;> rfl

theorem amendedFieldsZero_cons (n : String) (fv : GoVal)
    (rest : List (String × GoVal)) :
    amendedFieldsZero ((n, fv) :: rest)
      = (isZeroAmended (unpackValue fv) && amendedFieldsZero rest) := by
  cases fv <;> try rfl
  rename_i inner
  cases inner <;> rfl

mutual

theorem valZero_eq : (v : GoVal) → isZero v = isZeroAmended v
  | .invalid => rfl
  | .vbool _ _ => rfl
  | .vint _ _ => rfl
  | .vuint _ _ _ => rfl
  | .vuintptr _ _ => rfl
  | .vfloat _ _ _ => rfl
  | .vcomplex _ _ _ _ => rfl
  | .vstring _ _ => rfl
  | .vslice _ _ _ => rfl
  | .varray _ _ => rfl
  | .vmap _ _ _ => rfl
  | .viface _ _ => rfl
  | .vptr _ _ => rfl
  | .vchan _ _ => rfl
  | .vfunc _ _ => rfl
  | .vunsafePtr _ _ => rfl
  | .vstruct _ fs _ _ => by
      simpa [isZero, isZeroAmended] using fieldsZero_eq fs

theorem fieldsZero_eq :
    (l : List (String × GoVal)) → goFieldsZero l = amendedFieldsZero l
  | [] => rfl
  | (_, .invalid) :: rest => by
      simp [goFieldsZero, amendedFieldsZero, isZero, isZeroAmended,
        fieldsZero_eq rest]
  | (_, .vbool _ _) :: rest => by
      simp [goFieldsZero, amendedFieldsZero, isZero, isZeroAmended,
        fieldsZero_eq rest]
  | (_, .vint _ _) :: rest => by
      simp [goFieldsZero, amendedFieldsZero, isZero, isZeroAmended,
        fieldsZero_eq rest]
  | (_, .vuint _ _ _) :: rest => by
      simp [goFieldsZero, amendedFieldsZero, isZero, isZeroAmended,
        fieldsZero_eq rest]
  | (_, .vuintptr _ _) :: rest => by
      simp [goFieldsZero, amendedFieldsZero, isZero, isZeroAmended,
        fieldsZero_eq rest]
  | (_, .vfloat _ _ _) :: rest => by
      simp [goFieldsZero, amendedFieldsZero, isZero, isZeroAmended,
        fieldsZero_eq rest]
  | (_, .vcomplex _ _ _ _) :: rest => by
      simp [goFieldsZero, amendedFieldsZero, isZero, isZeroAmended,
        fieldsZero_eq rest]
  | (_, .vstring _ _) :: rest => by
      simp [goFieldsZero, amendedFieldsZero, isZero, isZeroAmended,
        fieldsZero_eq rest]
  | (_, .vslice _ _ _) :: rest => by
      simp [goFieldsZero, amendedFieldsZero, isZero, isZeroAmended,
        fieldsZero_eq rest]
  | (_, .varray _ _) :: rest => by
      simp [goFieldsZero, amendedFieldsZero, isZero, isZeroAmended,
        fieldsZero_eq rest]
  | (_, .vmap _ _ _) :: rest => by
      simp [goFieldsZero, amendedFieldsZero, isZero, isZeroAmended,
        fieldsZero_eq rest]
  | (_, .vstruct _ fs _ _) :: rest => by
      simp [goFieldsZero, amendedFieldsZero, isZero, isZeroAmended,
        fieldsZero_eq fs, fieldsZero_eq rest]
  | (_, .viface _ none) :: rest => by
      simp [goFieldsZero, amendedFieldsZero, isZero, isZeroAmended,
        fieldsZero_eq rest]
  | (_, .viface _ (some w)) :: rest => by
      simp [goFieldsZero, amendedFieldsZero, valZero_eq w, fieldsZero_eq rest]
  | (_, .vptr _ _) :: rest => by
      simp [goFieldsZero, amendedFieldsZero, isZero, isZeroAmended,
        fieldsZero_eq rest]
  | (_, .vchan _ _) :: rest => by
      simp [goFieldsZero, amendedFieldsZero, isZero, isZeroAmended,
        fieldsZero_eq rest]
  | (_, .vfunc _ _) :: rest => by
      simp [goFieldsZero, amendedFieldsZero, isZero, isZeroAmended,
        fieldsZero_eq rest]
  | (_, .vunsafePtr _ _) :: rest => by
      simp [goFieldsZero, amendedFieldsZero, isZero, isZeroAmended,
        fieldsZero_eq rest]

end

/-- C4 counterexample: the source's `isZero` reports a nil pointer as zero,
while the claim's enumeration (which does not list pointers) requires every
unlisted shape to be non-zero. -/
theorem C4_nil_pointer_counterexample :
    isZero (.vptr ⟨"*int", ""⟩ none) = true ∧
      isZeroClaimC4 (.vptr ⟨"*int", ""⟩ none) = false :=
  ⟨rfl, rfl⟩

/-- C4 amended: `isZero` behaves exactly as the claim states it once the
pointer case is added — a nil pointer is zero and a non-nil pointer is
non-zero; all other shapes as enumerated by the claim. -/
theorem C4_isZero_amended : ∀ v : GoVal, isZero v = isZeroAmended v :=
  valZero_eq

/-- C1: dumping a nil (or length-zero) top-level slice or array panics in the
type-name step — `v.Index(0)` runs before the nil check — while the same nil
slice in a type-suppressed position (where the element probe is skipped)
renders as the literal `nil`.  This contradicts the claim that every dump pass
completes and renders nil slices as `nil`. -/
theorem C1_empty_slice_fault :
    dump 9 [] cfgD initState (.vslice tyIntSlice true [])
        = .error (.fault .indexRange) ∧
    dump 9 [] cfgD initState (.varray ⟨"[0]int", ""⟩ [])
        = .error (.fault .indexRange) ∧
    dump 9 [] cfgD { initState with ignoreNextType := true }
        (.vslice tyIntSlice true [])
      = .ok { initState with out := "nil" } :=
  ⟨rfl, rfl, rfl⟩

theorem selfWalk_stable : ∀ (n : Nat) (chain : List Nat) (ind : Nat),
    walkChain n selfHeap [(1, 0)] 0 chain ind selfVal = .error .fuelOut := by
  intro n
  induction n with
  | zero => intro chain ind; rfl
  | succ n ih => intro chain ind; exact ih (chain ++ [1]) (ind + 1)

theorem selfWalk_start : ∀ (n : Nat) (chain : List Nat) (ind : Nat),
    walkChain n selfHeap [] 0 chain ind selfVal = .error .fuelOut
  | 0, _, _ => rfl
  | n + 1, chain, ind => selfWalk_stable n (chain ++ [1]) (ind + 1)

/-- C3 counterexample: for the direct self-referential pointer `type P *P`
with `p = &p` (a pointer cycle of length one), the dump never terminates — the
indirection walk revisits the same address at an unchanged depth, and the
cycle test `pd < depth` never fires. -/
theorem C3_self_pointer_diverges :
    ¬ ∃ n s', dump n selfHeap cfgD initState selfVal = Except.ok s' := by
  have key : ∀ n, dump n selfHeap cfgD initState selfVal = .error .fuelOut := by
    intro n
    match n with
    | 0 => rfl
    | 1 => rfl
    | m + 2 =>
      have h := selfWalk_start m [] 0
      change exBind (walkChain m selfHeap [] 0 [] 0 selfVal) _ = _
      rw [h]
      rfl
  rintro ⟨n, s', h⟩
  rw [key n] at h
  exact Except.noConfusion h

/-- C8 counterexample: for a newline-containing string with an unpaired
backtick, the splice leaves the backtick unescaped and the emitted literal is
not a valid expression (the claim asserts every embedded backtick is escaped
and the literal valid). -/
theorem C8_unpaired_backtick_invalid :
    outOf (dump 3 [] cfgD { initState with ignoreNextType := true }
        (.vstring tyStr badStr))
      = tickS ++ spliceTicks badStr ++ tickS ∧
    evalGoStrExpr ((tickS ++ spliceTicks badStr ++ tickS).toList) = none ∧
    spliceTicks badStr = badStr :=
  ⟨rfl, rfl, rfl⟩

theorem spliceOKAux_some_tick (seg : List Char) (r : List Char) :
    spliceOKAux (some seg) (tickC :: r)
      = (seg.all segCleanChar && spliceOKAux none r) := rfl

theorem spliceOKAux_none_tick (r : List Char) :
    spliceOKAux none (tickC :: r) = spliceOKAux (some []) r := rfl

theorem spliceOKAux_none_cons (c : Char) (r : List Char) (hc : ¬c = tickC) :
    spliceOKAux none (c :: r) = spliceOKAux none r := by
  simp [spliceOKAux, hc]

theorem spliceOKAux_some_cons (seg : List Char) (c : Char) (r : List Char)
    (hc : ¬c = tickC) (hn : ¬c = nlC) :
    spliceOKAux (some seg) (c :: r) = spliceOKAux (some (c :: seg)) r := by
  simp [spliceOKAux, hc, hn]

theorem spliceAux_none_tick (r : List Char) :
    spliceAux none (tickC :: r) = spliceAux (some []) r := rfl

theorem spliceAux_none_cons (c : Char) (r : List Char) (hc : ¬c = tickC) :
    spliceAux none (c :: r) = c :: spliceAux none r := by
  simp [spliceAux, hc]

theorem spliceAux_some_tick (seg : List Char) (r : List Char) :
    spliceAux (some seg) (tickC :: r)
      = ([tickC, '+', '"', tickC] ++ seg.reverse ++ [tickC, '"', '+', tickC])
        ++ spliceAux none r := rfl

theorem spliceAux_some_cons (seg : List Char) (c : Char) (r : List Char)
    (hc : ¬c = tickC) (hn : ¬c = nlC) :
    spliceAux (some seg) (c :: r) = spliceAux (some (c :: seg)) r := by
  simp [spliceAux, hc, hn]

theorem quotedMode_cons_clean (c : Char) (l : List Char) (h1 : ¬c = '"')
    (h2 : ¬c = '\\') (h3 : ¬c = nlC) :
    quotedMode (c :: l) = (quotedMode l).map (fun t => c :: t) := by
  simp [quotedMode, parseSM, h1, h2, h3]

theorem rawMode_plain_cons (c : Char) (l : List Char) (hc : ¬c = tickC) :
    rawMode (c :: l) = (rawMode l).map (fun t => c :: t) := by
  simp [rawMode, parseSM, hc]

theorem rawMode_open (X : List Char) :
    rawMode (tickC :: '+' :: '"' :: X) = quotedMode X := rfl

theorem quotedMode_close (S : List Char) :
    quotedMode ('"' :: '+' :: tickC :: S) = rawMode S := rfl

theorem quotedMode_clean_append (cs rest : List Char)
    (h : cs.all segCleanChar = true) :
    quotedMode (cs ++ rest) = (quotedMode rest).map (fun l => cs ++ l) := by
  induction cs with
  | nil =>
    simp
  | cons c cs ih =>
    simp only [List.all_cons, Bool.and_eq_true] at h
    obtain ⟨hc, hrest⟩ := h
    simp only [segCleanChar, Bool.and_eq_true, decide_eq_true_eq] at hc
    obtain ⟨⟨h1, h2⟩, h3⟩ := hc
    rw [List.cons_append, quotedMode_cons_clean c _ h1 h2 h3, ih hrest,
      Option.map_map]
    rfl

mutual

theorem splice_rt_none : (l : List Char) → spliceOKAux none l = true →
    rawMode (spliceAux none l ++ [tickC]) = some l
  | [], _ => rfl
  | c :: r, h => by
    by_cases hc : c = tickC
    · subst hc
      rw [spliceOKAux_none_tick] at h
      have ih := splice_rt_some r [] h
      rw [spliceAux_none_tick]
      simpa using ih
    · rw [spliceOKAux_none_cons c r hc] at h
      have ih := splice_rt_none r h
      rw [spliceAux_none_cons c r hc, List.cons_append,
        rawMode_plain_cons _ _ hc, ih]
      rfl

theorem splice_rt_some : (l : List Char) → (seg : List Char) →
    spliceOKAux (some seg) l = true →
    rawMode (spliceAux (some seg) l ++ [tickC])
      = some (tickC :: (seg.reverse ++ l))
  | [], seg, h => by simp [spliceOKAux] at h
  | c :: r, seg, h => by
    by_cases hc : c = tickC
    · subst hc
      rw [spliceOKAux_some_tick, Bool.and_eq_true] at h
      have ih := splice_rt_none r h.2
      have hclean : (seg.reverse).all segCleanChar = true := by
        rw [List.all_reverse]
        exact h.1
      rw [spliceAux_some_tick]
      have e1 : (([tickC, '+', '"', tickC] ++ seg.reverse
            ++ [tickC, '"', '+', tickC]) ++ spliceAux none r) ++ [tickC]
          = tickC :: '+' :: '"' :: (tickC :: (seg.reverse
            ++ (tickC :: '"' :: '+' :: tickC
              :: (spliceAux none r ++ [tickC])))) := by
        simp
      rw [e1, rawMode_open,
        quotedMode_cons_clean tickC _ (by decide) (by decide) (by decide),
        quotedMode_clean_append _ _ hclean,
        quotedMode_cons_clean tickC _ (by decide) (by decide) (by decide),
        quotedMode_close, ih]
      simp
    · by_cases hn : c = nlC
      · subst hn
        simp [spliceOKAux, hc] at h
      · rw [spliceOKAux_some_cons seg c r hc hn] at h
        have ih := splice_rt_some r (c :: seg) h
        rw [spliceAux_some_cons seg c r hc hn, ih]
        simp

end

/-- C8 amended: backticks are escaped only when they pair with a later
backtick on the same line, and the pair's content is quoted verbatim.  When
every backtick pairs and no pair encloses a quote or backslash (`spliceOK`),
the emitted raw literal is a valid expression evaluating back to the original
string; strings without a newline are emitted as a quoted escaped literal. -/
theorem C8_amended (fuel : Nat) (H : Heap) (cfg : ConfigState) (s : DumpState)
    (ty : GoType) (str : String)
    (hT : s.ignoreNextType = true)
    (hn : strHasChar str nlC = true)
    (hok : spliceOK str = true) :
    dump (fuel + 1) H cfg s (.vstring ty str)
      = .ok (write { s with ignoreNextType := false }
          (tickS ++ spliceTicks str ++ tickS)) ∧
    evalGoStrExpr ((tickS ++ spliceTicks str ++ tickS).toList)
      = some str.toList ∧
    (∀ str2 : String, strHasChar str2 nlC = false →
      dump (fuel + 1) H cfg s (.vstring ty str2)
        = .ok (write { s with ignoreNextType := false } (goQuote str2))) := by
  refine ⟨?_, ?_, ?_⟩
  · simp [dump, fnsAt, stepFns, dumpGo, typeStep, hT, hn, handleMethods]
  · have : evalGoStrExpr ((tickS ++ spliceTicks str ++ tickS).toList)
        = rawMode (spliceAux none str.toList ++ [tickC]) := by
      simp [evalGoStrExpr, tickS, spliceTicks, String.toList]
    rw [this, splice_rt_none str.toList hok]
  · intro str2 hn2
    simp [dump, fnsAt, stepFns, dumpGo, typeStep, hT, hn2, handleMethods]

/-- C8 witness: the amended theorem applied to a paired-backtick string. -/
theorem C8_witness :
    ({ initState with ignoreNextType := true } : DumpState).ignoreNextType
        = true ∧
    strHasChar okStr nlC = true ∧ spliceOK okStr = true ∧
    (dump 1 [] cfgD { initState with ignoreNextType := true }
        (.vstring tyStr okStr)
      = .ok (write initState (tickS ++ spliceTicks okStr ++ tickS)) ∧
    evalGoStrExpr ((tickS ++ spliceTicks okStr ++ tickS).toList)
      = some okStr.toList ∧
    (∀ str2 : String, strHasChar str2 nlC = false →
      dump 1 [] cfgD { initState with ignoreNextType := true }
          (.vstring tyStr str2)
        = .ok (write initState (goQuote str2)))) :=
  ⟨rfl, rfl, rfl,
    C8_amended 0 [] cfgD { initState with ignoreNextType := true } tyStr okStr
      rfl rfl rfl⟩

/-! Unfolding equations of the fuel-indexed engine. -/

theorem walkChain_zero (H : Heap) (ptrs : List (Nat × Int)) (d : Int)
    (chain : List Nat) (ind : Nat) (ve : GoVal) :
    walkChain 0 H ptrs d chain ind ve = .error .fuelOut := rfl

theorem walkChain_succ (n : Nat) (H : Heap) (ptrs : List (Nat × Int)) (d : Int)
    (chain : List Nat) (ind : Nat) (ve : GoVal) :
    walkChain (n + 1) H ptrs d chain ind ve
      = walkChainGo (walkChain n H) H ptrs d chain ind ve := rfl

theorem dumpPtr_zero (H : Heap) (cfg : ConfigState) (s : DumpState)
    (v : GoVal) : dumpPtr 0 H cfg s v = .error .fuelOut := rfl

theorem dumpPtr_succ (n : Nat) (H : Heap) (cfg : ConfigState) (s : DumpState)
    (v : GoVal) :
    dumpPtr (n + 1) H cfg s v
      = dumpPtrGo (walkChain n H) (dump n H cfg) s v := rfl

theorem dump_zero (H : Heap) (cfg : ConfigState) (s : DumpState) (v : GoVal) :
    dump 0 H cfg s v = .error .fuelOut := rfl

theorem dump_succ (n : Nat) (H : Heap) (cfg : ConfigState) (s : DumpState)
    (v : GoVal) :
    dump (n + 1) H cfg s v
      = dumpGo (dumpPtr n H cfg) (dump n H cfg) cfg s v := rfl

/-! Association-list lemmas (Go map lookup/assignment). -/

theorem lookupP_cons {κ β : Type} [BEq κ] [LawfulBEq κ] [DecidableEq κ] (a : κ) (b : β)
    (l : List (κ × β)) (k : κ) :
    ((a, b) :: l).lookup k = if k = a then some b else l.lookup k := by
  rw [List.lookup_cons]
  by_cases h : k = a
  · subst h
    simp
  · have hb : (k == a) = false := by simp [h]
    rw [hb, if_neg h]

theorem lookup_none_of_not_mem {κ β : Type} [BEq κ] [LawfulBEq κ] [DecidableEq κ]
    (l : List (κ × β)) (k : κ) (h : k ∉ l.map Prod.fst) :
    l.lookup k = none := by
  induction l with
  | nil => rfl
  | cons p rest ih =>
    obtain ⟨a, b⟩ := p
    simp only [List.map_cons, List.mem_cons] at h
    push_neg at h
    rw [lookupP_cons, if_neg h.1]
    exact ih h.2

theorem assocSet_lookup_map {κ β : Type} [BEq κ] [LawfulBEq κ] [DecidableEq κ]
    (m : List (κ × β)) (k k' : κ) (v' : β) :
    (m.map (fun p => if p.1 == k' then (k', v') else p)).lookup k
      = if k = k' then (m.lookup k').map (fun _ => v') else m.lookup k := by
  induction m with
  | nil => by_cases h : k = k' <;> simp [h]
  | cons p rest ih =>
    obtain ⟨a, b⟩ := p
    by_cases ha : a = k' <;> by_cases hk : k = a <;>
      simp_all [lookupP_cons, List.map_cons, beq_iff_eq]
    rw [if_neg (show ¬k' = a from fun e => ha e.symm)]

theorem lookup_append_right {κ β : Type} [BEq κ] [LawfulBEq κ] [DecidableEq κ]
    (m : List (κ × β)) (l : List (κ × β)) (k : κ) (h : m.lookup k = none) :
    (m ++ l).lookup k = l.lookup k := by
  induction m with
  | nil => rfl
  | cons p rest ih =>
    obtain ⟨a, b⟩ := p
    rw [lookupP_cons] at h
    by_cases hk : k = a
    · simp [hk] at h
    · rw [if_neg hk] at h
      rw [List.cons_append, lookupP_cons, if_neg hk]
      exact ih h

theorem assocSet_lookup {κ β : Type} [BEq κ] [LawfulBEq κ] [DecidableEq κ]
    (m : List (κ × β)) (k k' : κ) (v' : β) :
    (assocSet m k' v').lookup k
      = if k = k' then some v' else m.lookup k := by
  unfold assocSet
  by_cases hp : (m.lookup k').isSome
  · rw [if_pos hp, assocSet_lookup_map]
    obtain ⟨w, hw⟩ := Option.isSome_iff_exists.mp hp
    rw [hw]
    by_cases hk : k = k' <;> simp [hk]
  · rw [if_neg hp]
    have hnone : m.lookup k' = none := by
      cases hmk : m.lookup k' with
      | none => rfl
      | some w => rw [hmk] at hp; simp at hp
    by_cases hk : k = k'
    · subst hk
      rw [lookup_append_right m _ k hnone, lookupP_cons, if_pos rfl,
        if_pos rfl]
    · rw [if_neg hk]
      cases hmk : m.lookup k with
      | none =>
        rw [lookup_append_right m _ k hmk, lookupP_cons, if_neg hk]
        rfl
      | some w =>
        clear hp hnone
        induction m with
        | nil => simp [List.lookup] at hmk
        | cons p rest ih =>
          obtain ⟨a, b⟩ := p
          rw [lookupP_cons] at hmk
          rw [List.cons_append, lookupP_cons]
          by_cases hka : k = a
          · rwa [if_pos hka] at hmk ⊢
          · rw [if_neg hka] at hmk ⊢
            exact ih hmk

/-- C5 counterexample: the per-value merge loop of `fdump` is plain Go map
assignment, so a duplicate key from a later value overrides the alias
recorded by an earlier value (the claim says it does not). -/
theorem C5_merge_overrides :
    mergeImports [("p", "a1")] [("p", "a2")] = [("p", "a2")] ∧
      ("a2" : String) ≠ "a1" :=
  ⟨rfl, by decide⟩

theorem mergeImports_cons (acc : List (String × String)) (k' v' : String)
    (l : List (String × String)) :
    mergeImports acc ((k', v') :: l) = mergeImports (assocSet acc k' v') l :=
  rfl

theorem mergeImports_lookup (l : List (String × String))
    (hnd : (l.map Prod.fst).Nodup) (acc : List (String × String))
    (k : String) :
    (mergeImports acc l).lookup k
      = (match l.lookup k with
         | some v => some v
         | none => acc.lookup k) := by
  induction l generalizing acc with
  | nil => rfl
  | cons p rest ih =>
    obtain ⟨k', v'⟩ := p
    simp only [List.map_cons, List.nodup_cons] at hnd
    rw [mergeImports_cons, ih hnd.2, lookupP_cons]
    by_cases hk : k = k'
    · subst hk
      rw [if_pos rfl,
        lookup_none_of_not_mem rest k hnd.1, assocSet_lookup, if_pos rfl]
    · rw [if_neg hk, assocSet_lookup, if_neg hk]

/-- C5 amended: within one dump session re-adding a present package key is a
no-op (the first alias is kept), but the Session Driver's merge loop assigns
unconditionally, so for a duplicate key the alias of the **latest** value that
recorded it wins (earlier aliases are overridden). -/
theorem C5_amended (s : DumpState) (pkg aliasStr : String)
    (hpresent : (s.imports.lookup (stripVendor pkg)).isSome = true)
    (acc l : List (String × String)) (k : String)
    (hnd : (l.map Prod.fst).Nodup) :
    addImport s pkg aliasStr = s ∧
    (mergeImports acc l).lookup k
      = (match l.lookup k with
         | some v => some v
         | none => acc.lookup k) := by
  constructor
  · unfold addImport
    rw [if_pos hpresent]
  · exact mergeImports_lookup l hnd acc k

/-- C5 witness: the amended theorem at a concrete session state and merge. -/
theorem C5_witness :
    (((initState : DumpState).imports ++ [("a/b", "x")]).lookup
        (stripVendor "a/b")).isSome = true ∧
    ((([("p", "q")] : List (String × String)).map Prod.fst).Nodup ∧
    (addImport { initState with imports := [("a/b", "x")] } "a/b" "y"
        = { initState with imports := [("a/b", "x")] } ∧
    (mergeImports [("p", "old")] [("p", "q")]).lookup "p"
      = (match ([("p", "q")] : List (String × String)).lookup "p" with
         | some v => some v
         | none => ([("p", "old")] : List (String × String)).lookup "p"))) :=
  ⟨by decide, by decide,
    (C5_amended { initState with imports := [("a/b", "x")] } "a/b" "y"
      (by decide) [("p", "old")] [("p", "q")] "p" (by decide))⟩

theorem lookup_some_mem {κ β : Type} [BEq κ] [LawfulBEq κ] [DecidableEq κ]
    (l : List (κ × β)) (k : κ) (v : β) (h : l.lookup k = some v) :
    (k, v) ∈ l := by
  induction l with
  | nil => simp [List.lookup] at h
  | cons p rest ih =>
    obtain ⟨a, b⟩ := p
    rw [lookupP_cons] at h
    by_cases hk : k = a
    · rw [if_pos hk] at h
      subst hk
      simp only [Option.some.injEq] at h
      subst h
      exact List.mem_cons_self _ _
    · rw [if_neg hk] at h
      exact List.mem_cons_of_mem _ (ih h)

theorem purgePtrs_lookup (ps : List (Nat × Int)) (d : Int)
    (hnd : (ps.map Prod.fst).Nodup) (a : Nat) (dp : Int) :
    ((purgePtrs ps d).lookup a = some dp)
      ↔ (ps.lookup a = some dp ∧ dp < d) := by
  induction ps with
  | nil => simp [purgePtrs, List.lookup]
  | cons p rest ih =>
    obtain ⟨b, e⟩ := p
    simp only [List.map_cons, List.nodup_cons] at hnd
    by_cases he : e ≥ d
    · have hdrop : purgePtrs ((b, e) :: rest) d = purgePtrs rest d := by
        simp [purgePtrs, List.filter_cons, he]
      rw [hdrop, ih hnd.2, lookupP_cons]
      by_cases hk : a = b
      · subst hk
        rw [if_pos rfl]
        constructor
        · rintro ⟨hlk, hlt⟩
          exact absurd (lookup_some_mem rest a dp hlk)
            (fun hmem => hnd.1 (List.mem_map_of_mem Prod.fst hmem))
        · rintro ⟨hsome, hlt⟩
          simp only [Option.some.injEq] at hsome
          subst hsome
          omega
      · rw [if_neg hk]
    · have hkeep : purgePtrs ((b, e) :: rest) d
          = (b, e) :: purgePtrs rest d := by
        simp [purgePtrs, List.filter_cons, he]
      rw [hkeep, lookupP_cons, lookupP_cons]
      by_cases hk : a = b
      · rw [if_pos hk, if_pos hk]
        constructor
        · rintro hsome
          simp only [Option.some.injEq] at hsome
          subst hsome
          exact ⟨rfl, by omega⟩
        · rintro ⟨hsome, _⟩
          exact hsome
      · rw [if_neg hk, if_neg hk]
        exact ih hnd.2

set_option maxHeartbeats 1000000 in
theorem walk_aux (H : Heap) (d : Int) (m0 : List (Nat × Int))
    (h0 : ∀ (a : Nat) (pd : Int), m0.lookup a = some pd → pd < d) :
    ∀ (fuel : Nat) (m : List (Nat × Int)) (chainAcc : List Nat) (ind : Nat)
      (ve : GoVal) (r : WalkRes),
    (∀ a : Nat, m.lookup a = if a ∈ chainAcc then some d else m0.lookup a) →
    (∀ a ∈ chainAcc, m0.lookup a = none) →
    walkChain fuel H m d chainAcc ind ve = .ok r →
    (r.cycleFound = true → ∃ a ∈ r.chain, (m0.lookup a).isSome = true) ∧
    (r.cycleFound = false →
      ((∀ a : Nat, r.ptrs.lookup a
          = if a ∈ r.chain then some d else m0.lookup a) ∧
       (∀ a ∈ r.chain, m0.lookup a = none))) := by
  intro fuel
  induction fuel with
  | zero =>
    intro m chainAcc ind ve r _ _ hw
    rw [walkChain_zero] at hw
    exact absurd hw (by simp)
  | succ n ih =>
    intro m chainAcc ind ve r hm hca hw
    rw [walkChain_succ] at hw
    cases ve
    case vptr ty oaddr =>
      cases oaddr with
      | none =>
        have hr := Except.ok.inj hw
        subst hr
        exact ⟨fun hcf => Bool.noConfusion hcf, fun _ => ⟨hm, hca⟩⟩
      | some addr =>
        have hm0addr : addr ∈ chainAcc ∨ m0.lookup addr = none →
            (∀ a : Nat, (assocSet m addr d).lookup a
              = if a ∈ chainAcc ++ [addr] then some d else m0.lookup a) ∧
            (∀ a ∈ chainAcc ++ [addr], m0.lookup a = none) := by
          intro hor
          constructor
          · intro a
            rw [assocSet_lookup]
            by_cases hak : a = addr
            · subst hak
              rw [if_pos rfl, if_pos (by simp)]
            · rw [if_neg hak, hm a]
              have hiff : (a ∈ chainAcc ++ [addr]) ↔ (a ∈ chainAcc) := by
                simp [hak]
              by_cases hac : a ∈ chainAcc
              · rw [if_pos hac, if_pos (hiff.mpr hac)]
              · rw [if_neg hac, if_neg (fun hx => hac (hiff.mp hx))]
          · intro a ha
            rcases List.mem_append.mp ha with h1 | h1
            · exact hca a h1
            · have hax : a = addr := by simpa using h1
              subst hax
              rcases hor with h2 | h2
              · exact hca a h2
              · exact h2
        simp only [walkChainGo] at hw
        have hla := hm addr
        by_cases hmem : addr ∈ chainAcc
        · rw [if_pos hmem] at hla
          simp only [hla, lt_self_iff_false, decide_False, Bool.false_eq_true,
            if_false] at hw
          obtain ⟨hm', hca'⟩ := hm0addr (Or.inl hmem)
          generalize heapGet H addr = w at hw
          cases w with
          | viface t ov =>
            cases ov with
            | none =>
              have hr := Except.ok.inj hw
              subst hr
              exact ⟨fun hcf => Bool.noConfusion hcf, fun _ => ⟨hm', hca'⟩⟩
            | some wv => exact ih _ _ _ _ r hm' hca' hw
          | invalid => exact ih _ _ _ _ r hm' hca' hw
          | vbool t2 b2 => exact ih _ _ _ _ r hm' hca' hw
          | vint t2 x2 => exact ih _ _ _ _ r hm' hca' hw
          | vuint t2 b2 x2 => exact ih _ _ _ _ r hm' hca' hw
          | vuintptr t2 x2 => exact ih _ _ _ _ r hm' hca' hw
          | vfloat t2 b2 x2 => exact ih _ _ _ _ r hm' hca' hw
          | vcomplex t2 b2 x2 y2 => exact ih _ _ _ _ r hm' hca' hw
          | vstring t2 s2 => exact ih _ _ _ _ r hm' hca' hw
          | vslice t2 b2 e2 => exact ih _ _ _ _ r hm' hca' hw
          | varray t2 e2 => exact ih _ _ _ _ r hm' hca' hw
          | vmap t2 b2 e2 => exact ih _ _ _ _ r hm' hca' hw
          | vstruct t2 f2 m2 s2 => exact ih _ _ _ _ r hm' hca' hw
          | vptr t2 o2 => exact ih _ _ _ _ r hm' hca' hw
          | vchan t2 a2 => exact ih _ _ _ _ r hm' hca' hw
          | vfunc t2 a2 => exact ih _ _ _ _ r hm' hca' hw
          | vunsafePtr t2 a2 => exact ih _ _ _ _ r hm' hca' hw
        · rw [if_neg hmem] at hla
          cases hm0 : m0.lookup addr with
          | some pd =>
            rw [hm0] at hla
            have hpd : pd < d := h0 addr pd hm0
            simp only [hla, hpd, decide_True, if_true] at hw
            have hr := Except.ok.inj hw
            subst hr
            refine ⟨fun _ => ⟨addr, by simp, by rw [hm0]; rfl⟩,
              fun hcf => absurd hcf (by simp)⟩
          | none =>
            rw [hm0] at hla
            simp only [hla, Bool.false_eq_true, if_false] at hw
            obtain ⟨hm', hca'⟩ := hm0addr (Or.inr hm0)
            generalize heapGet H addr = w at hw
            cases w with
            | viface t ov =>
              cases ov with
              | none =>
                have hr := Except.ok.inj hw
                subst hr
                exact ⟨fun hcf => Bool.noConfusion hcf, fun _ => ⟨hm', hca'⟩⟩
              | some wv => exact ih _ _ _ _ r hm' hca' hw
            | invalid => exact ih _ _ _ _ r hm' hca' hw
            | vbool t2 b2 => exact ih _ _ _ _ r hm' hca' hw
            | vint t2 x2 => exact ih _ _ _ _ r hm' hca' hw
            | vuint t2 b2 x2 => exact ih _ _ _ _ r hm' hca' hw
            | vuintptr t2 x2 => exact ih _ _ _ _ r hm' hca' hw
            | vfloat t2 b2 x2 => exact ih _ _ _ _ r hm' hca' hw
            | vcomplex t2 b2 x2 y2 => exact ih _ _ _ _ r hm' hca' hw
            | vstring t2 s2 => exact ih _ _ _ _ r hm' hca' hw
            | vslice t2 b2 e2 => exact ih _ _ _ _ r hm' hca' hw
            | varray t2 e2 => exact ih _ _ _ _ r hm' hca' hw
            | vmap t2 b2 e2 => exact ih _ _ _ _ r hm' hca' hw
            | vstruct t2 f2 m2 s2 => exact ih _ _ _ _ r hm' hca' hw
            | vptr t2 o2 => exact ih _ _ _ _ r hm' hca' hw
            | vchan t2 a2 => exact ih _ _ _ _ r hm' hca' hw
            | vfunc t2 a2 => exact ih _ _ _ _ r hm' hca' hw
            | vunsafePtr t2 a2 => exact ih _ _ _ _ r hm' hca' hw
    all_goals {
      have hr := Except.ok.inj hw
      subst hr
      exact ⟨fun hcf => Bool.noConfusion hcf, fun _ => ⟨hm, hca⟩⟩ }

/-- C2: before walking a pointer's indirection chain, `dumpPtr` purges every
recorded address whose depth is at or above the current depth (so a record
survives the purge exactly when its depth is strictly below the current
depth); during the walk every visited address is recorded at the current
depth; a cycle is declared exactly when some address of the chain was already
recorded (necessarily at a strictly smaller depth, after the purge), in which
case the pointee's content is never consulted and the circular marker is
written after the type name; and a nil at any step renders the whole chain as
the literal `nil`. -/
theorem C2_dumpPtr_purge_cycle_nil (fuel : Nat) (H : Heap) (cfg : ConfigState)
    (s : DumpState) (v : GoVal)
    (hnd : (s.pointers.map Prod.fst).Nodup) :
    (∀ (a : Nat) (dp : Int),
      ((purgePtrs s.pointers s.depth).lookup a = some dp)
        ↔ (s.pointers.lookup a = some dp ∧ dp < s.depth)) ∧
    (∀ r : WalkRes,
      walkChain fuel H (purgePtrs s.pointers s.depth) s.depth [] 0 v = .ok r →
      ((r.cycleFound = true
          ↔ ∃ a ∈ r.chain,
              ((purgePtrs s.pointers s.depth).lookup a).isSome = true) ∧
       (r.cycleFound = false →
          ∀ a ∈ r.chain, r.ptrs.lookup a = some s.depth) ∧
       (r.nilFound = true →
          dumpPtr (fuel + 1) H cfg s v
            = .ok { s with pointers := r.ptrs, out := s.out ++ "nil" }) ∧
       (r.cycleFound = true →
          ∀ dmp1 dmp2 : DumpState → GoVal → Except DumpErr DumpState,
            dumpPtrGo (walkChain fuel H) dmp1 s v
              = dumpPtrGo (walkChain fuel H) dmp2 s v) ∧
       (r.cycleFound = true → r.nilFound = false → Addressable r.ve = true →
          ∀ (tn : String) (s5 : DumpState),
            k8sType
              (write
                (if s.depth = 0 then
                  write { s with pointers := r.ptrs } "var _ = "
                else { s with pointers := r.ptrs })
                (String.join (List.replicate r.indirects "&"))) r.ve
              = .ok (tn, s5) →
            dumpPtr (fuel + 1) H cfg s v
              = .ok (write (write s5 tn) circularMark)))) := by
  have hpl := purgePtrs_lookup s.pointers s.depth hnd
  have h0 : ∀ (a : Nat) (pd : Int),
      (purgePtrs s.pointers s.depth).lookup a = some pd → pd < s.depth :=
    fun a pd h => ((hpl a pd).mp h).2
  refine ⟨hpl, ?_⟩
  intro r hw
  have haux := walk_aux H s.depth (purgePtrs s.pointers s.depth) h0 fuel
      (purgePtrs s.pointers s.depth) [] 0 v r
      (fun a => by rw [if_neg (List.not_mem_nil a)])
      (fun a ha => absurd ha (List.not_mem_nil a)) hw
  refine ⟨?_, ?_, ?_, ?_, ?_⟩
  · constructor
    · intro hcf
      obtain ⟨a, ha, hsome⟩ := haux.1 hcf
      exact ⟨a, ha, hsome⟩
    · rintro ⟨a, hachain, hasome⟩
      by_contra hcf
      have hcf' : r.cycleFound = false := by
        cases hval : r.cycleFound
        · rfl
        · exact absurd hval hcf
      have hnone := (haux.2 hcf').2 a hachain
      rw [hnone] at hasome
      simp at hasome
  · intro hcf a ha
    have h1 := (haux.2 hcf).1 a
    rwa [if_pos ha] at h1
  · intro hnil
    rw [dumpPtr_succ]
    simp only [dumpPtrGo]
    rw [hw]
    simp only [exBind_ok, hnil, if_true]
    rfl
  · intro hcf dmp1 dmp2
    simp only [dumpPtrGo]
    rw [hw]
    simp only [exBind_ok, hcf, if_true]
  · intro hcf hnil haddr tn s5 hk8s
    rw [dumpPtr_succ]
    simp only [dumpPtrGo]
    rw [hw]
    simp only [exBind_ok, hnil, hcf, haddr, Bool.false_eq_true, if_false,
      Bool.not_true, if_true]
    rw [hk8s]
    simp only [exBind_ok]


/-- Witness for C2 at a concrete one-deep state with an ancestor record, a
sibling record to purge, and a chain that ends in nil. -/
theorem C2_witness :
    ((cw2s.pointers.map Prod.fst).Nodup) ∧
    (((purgePtrs cw2s.pointers cw2s.depth).lookup 7 = some 2)
      ↔ (cw2s.pointers.lookup 7 = some 2 ∧ (2 : Int) < cw2s.depth)) ∧
    (∀ a ∈ cw2r.chain, cw2r.ptrs.lookup a = some cw2s.depth) ∧
    (dumpPtr 11 cw2H cfgD cw2s cw2v
      = .ok { cw2s with pointers := cw2r.ptrs, out := cw2s.out ++ "nil" }) := by
  have h := C2_dumpPtr_purge_cycle_nil 10 cw2H cfgD cw2s cw2v (by decide)
  have hr := h.2 cw2r (by rfl)
  exact ⟨by decide, h.1 7 2, hr.2.1 (by rfl), hr.2.2.1 (by rfl)⟩

theorem exBind_assoc {α β γ : Type} (m : Except DumpErr α)
    (f : α → Except DumpErr β) (g : β → Except DumpErr γ) :
    exBind (exBind m f) g = exBind m fun x => exBind (f x) g := by
  cases m <;> rfl

theorem exBind_pure {α : Type} (m : Except DumpErr α) :
    exBind m (fun x => .ok x) = m := by
  cases m <;> rfl

/-- C10: when the indirection walk ends at an addressable pointee (struct,
map, slice, ... — `Addressable r.ve`), the pointer rendering prefixes the
output with `var _ = ` exactly when the current depth is 0, then the
ampersands and the type name; at any depth other than 0 nothing is prefixed
(the emitted text continues directly with the ampersands). -/
theorem C10_var_underscore_prefix (fuel : Nat) (H : Heap) (cfg : ConfigState)
    (s : DumpState) (v : GoVal) (r : WalkRes)
    (hw : walkChain fuel H (purgePtrs s.pointers s.depth) s.depth [] 0 v
      = .ok r)
    (hnil : r.nilFound = false)
    (haddr : Addressable r.ve = true) :
    dumpPtr (fuel + 1) H cfg s v
      = exBind
          (k8sType
            { s with
              pointers := r.ptrs,
              out := s.out ++ (if s.depth = 0 then "var _ = " else "")
                ++ String.join (List.replicate r.indirects "&") } r.ve)
          (fun p =>
            if r.cycleFound then .ok (write (write p.2 p.1) circularMark)
            else dump fuel H cfg
              { (write p.2 p.1) with ignoreNextType := true } r.ve) := by
  rw [dumpPtr_succ]
  simp only [dumpPtrGo]
  rw [hw]
  simp only [exBind_ok, hnil, haddr, Bool.false_eq_true, Bool.not_true,
    if_false, exBind_assoc, exBind_pure]
  by_cases hd : s.depth = 0 <;>
    simp [hd, write, exBind_assoc, exBind_ok, String.append_assoc]

/-- Witness for C10: dumping the cycle entry pointer at depth 0 prefixes
`var _ = ` and one ampersand before the type-name step. -/
theorem C10_witness :
    dumpPtr 11 cycHeap cfgD initState cycVal
      = exBind
          (k8sType
            { initState with
              pointers := [(1, 0)],
              out := "" ++ "var _ = " ++ "&" } cw10r.ve)
          (fun p =>
            dump 10 cycHeap cfgD
              { (write p.2 p.1) with ignoreNextType := true } cw10r.ve) :=
  C10_var_underscore_prefix 10 cycHeap cfgD initState cycVal cw10r rfl rfl rfl

theorem dumpFields_filter (dmp : DumpState → GoVal → Except DumpErr DumpState)
    (cfg : ConfigState) (l : List (String × GoVal)) :
    ∀ s : DumpState,
    dumpFieldsGo dmp cfg s l
      = specFieldsRender dmp cfg s (l.filter (fun f => ¬isZero f.2)) := by
  induction l with
  | nil => intro s; rfl
  | cons p rest ih =>
    intro s
    obtain ⟨name, fv⟩ := p
    simp only [decide_not] at ih
    by_cases hz : isZero fv = true
    · simp only [dumpFieldsGo, hz, if_true, List.filter_cons]
      simp only [hz, decide_not, decide_True, Bool.not_true, Bool.false_eq_true,
        if_false]
      exact ih s
    · have hzf : isZero fv = false := by
        cases hv : isZero fv
        · rfl
        · exact absurd hv hz
      simp only [dumpFieldsGo, hzf, Bool.false_eq_true, if_false,
        List.filter_cons]
      simp only [hzf, decide_not, Bool.not_false, if_true, decide_False]
      simp only [specFieldsRender]
      apply congrArg
      funext s1
      apply congrArg
      funext s2
      exact ih (write s2 ",\n")

/-- C7: with the type already printed (`ignoreNextType`), a struct that is not
the special quantity type renders exactly as the spec's braced block:
open brace, depth incremented, every field the Zero-Value Detector reports
zero skipped and the remaining fields emitted in declaration order as name,
colon-space, unpacked value with suppress-indent set and a separator, then
depth decremented and a closing brace. -/
theorem C7_struct_render (fuel : Nat) (H : Heap) (cfg : ConfigState)
    (s : DumpState) (ty : GoType) (fields : List (String × GoVal))
    (mj st : Option String)
    (hig : s.ignoreNextType = true)
    (hty : ty.str ≠ "resource.Quantity")
    (hst : handleMethods (.vstruct ty fields mj st) = none) :
    dump (fuel + 1) H cfg s (.vstruct ty fields mj st)
      = specStructRender (dump fuel H cfg) cfg
          { s with ignoreNextType := false } fields := by
  rw [dump_succ]
  simp only [dumpGo, typeStep]
  simp only [hig, if_true, exBind_ok, hst, ite_self]
  rw [if_pos hty]
  simp only [specStructRender]
  rw [dumpFields_filter]

/-- Witness for C7: a three-field struct whose `Zero` field is skipped. -/
theorem C7_witness :
    (({ initState with ignoreNextType := true } : DumpState).ignoreNextType
        = true) ∧
    (tyT.str ≠ "resource.Quantity") ∧
    (handleMethods (.vstruct tyT c7fields none none) = none) ∧
    (dump 4 [] cfgD { initState with ignoreNextType := true }
        (.vstruct tyT c7fields none none)
      = specStructRender (dump 3 [] cfgD) cfgD initState c7fields) :=
  ⟨rfl, by decide, rfl,
    C7_struct_render 3 [] cfgD { initState with ignoreNextType := true } tyT
      c7fields none none rfl (by decide) rfl⟩

theorem exBind_ok_iff {α β : Type} (m : Except DumpErr α)
    (f : α → Except DumpErr β) (b : β) :
    exBind m f = .ok b ↔ ∃ a, m = .ok a ∧ f a = .ok b := by
  cases m <;> simp [exBind]

theorem exBind_error_iff {α β : Type} (m : Except DumpErr α)
    (f : α → Except DumpErr β) (e : DumpErr) :
    exBind m f = .error e
      ↔ (m = .error e ∨ ∃ a, m = .ok a ∧ f a = .error e) := by
  cases m <;> simp [exBind]

theorem write_depth (s : DumpState) (t : String) :
    (write s t).depth = s.depth := rfl

theorem indent_ok_depth (cfg : ConfigState) (s x : DumpState)
    (h : indent cfg s = .ok x) : x.depth = s.depth := by
  unfold indent at h
  split at h
  · exact congrArg DumpState.depth (Except.ok.inj h) ▸ rfl
  · split at h
    · exact absurd h (by simp)
    · rw [← Except.ok.inj h]
      rfl

theorem indent_noneg (cfg : ConfigState) (s : DumpState) (hd : 0 ≤ s.depth) :
    indent cfg s ≠ .error (.fault .negRepeat) := by
  unfold indent
  split
  · simp
  · split
    · omega
    · simp

theorem indent_err (cfg : ConfigState) (s : DumpState) (e : DumpErr)
    (h : indent cfg s = .error e) : e = .fault .negRepeat := by
  unfold indent at h
  split at h
  · exact absurd h (by simp)
  · split at h
    · exact (Except.error.inj h).symm
    · exact absurd h (by simp)

theorem addImport_depth (s : DumpState) (p a : String) :
    (addImport s p a).depth = s.depth := by
  simp only [addImport]
  split <;> rfl

theorem k8sType_ok_depth (s : DumpState) (v : GoVal) (tn : String)
    (s' : DumpState) (h : k8sType s v = .ok (tn, s')) : s'.depth = s.depth := by
  simp only [k8sType] at h
  repeat' split at h
  all_goals simp at h
  all_goals (
    obtain ⟨h1, h2⟩ := h
    subst h2
    simp [addImport_depth])

theorem k8sType_err (s : DumpState) (v : GoVal) (e : DumpErr)
    (h : k8sType s v = .error e) : e = .fault .indexRange := by
  simp only [k8sType] at h
  repeat' split at h
  all_goals simp at h
  all_goals (first | exact h.symm | exact h)

theorem typeNamePrint_ok_depth (s : DumpState) (v : GoVal)
    (p : DumpState × Bool) (h : typeNamePrint s v = .ok p) :
    p.1.depth = s.depth := by
  have hone : ∀ (w : GoVal) (q : String × DumpState),
      k8sType s w = .ok q
        → ((write q.2 q.1, false) : DumpState × Bool).1.depth = s.depth := by
    rintro w ⟨tn, s2⟩ hk
    simpa [write_depth] using k8sType_ok_depth s w tn s2 hk
  cases v with
  | vslice t inil es =>
    simp only [typeNamePrint] at h
    split at h
    · simp at h
    · split at h
      · have h2 := Except.ok.inj h
        subst h2
        rfl
      · obtain ⟨q, hq, h2⟩ := (exBind_ok_iff _ _ _).mp h
        have h3 := Except.ok.inj h2
        subst h3
        exact hone _ q hq
  | varray t es =>
    simp only [typeNamePrint] at h
    split at h
    · simp at h
    · split at h
      · have h2 := Except.ok.inj h
        subst h2
        rfl
      · obtain ⟨q, hq, h2⟩ := (exBind_ok_iff _ _ _).mp h
        have h3 := Except.ok.inj h2
        subst h3
        exact hone _ q hq
  | vmap t inil es =>
    simp only [typeNamePrint] at h
    obtain ⟨q, hq, h2⟩ := (exBind_ok_iff _ _ _).mp h
    have h3 := Except.ok.inj h2
    subst h3
    exact hone _ q hq
  | viface t inner =>
    simp only [typeNamePrint] at h
    split at h
    · split at h
      · have h2 := Except.ok.inj h
        subst h2
        simp [write_depth, addImport_depth]
      · simp at h
    · obtain ⟨q, hq, h2⟩ := (exBind_ok_iff _ _ _).mp h
      have h3 := Except.ok.inj h2
      subst h3
      exact hone _ q hq
  | vstruct t fs mj st =>
    simp only [typeNamePrint] at h
    split at h
    · split at h
      · have h2 := Except.ok.inj h
        subst h2
        simp [write_depth, addImport_depth]
      · simp at h
    · obtain ⟨q, hq, h2⟩ := (exBind_ok_iff _ _ _).mp h
      have h3 := Except.ok.inj h2
      subst h3
      exact hone _ q hq
  | invalid =>
    have h2 := Except.ok.inj h
    subst h2
    rfl
  | vbool t b =>
    have h2 := Except.ok.inj h
    subst h2
    rfl
  | vint t x =>
    have h2 := Except.ok.inj h
    subst h2
    rfl
  | vuint t b x =>
    have h2 := Except.ok.inj h
    subst h2
    rfl
  | vuintptr t x =>
    have h2 := Except.ok.inj h
    subst h2
    rfl
  | vfloat t b x =>
    have h2 := Except.ok.inj h
    subst h2
    rfl
  | vcomplex t b x y =>
    have h2 := Except.ok.inj h
    subst h2
    rfl
  | vstring t str =>
    have h2 := Except.ok.inj h
    subst h2
    rfl
  | vptr t oa =>
    have h2 := Except.ok.inj h
    subst h2
    rfl
  | vchan t a =>
    have h2 := Except.ok.inj h
    subst h2
    rfl
  | vfunc t a =>
    have h2 := Except.ok.inj h
    subst h2
    rfl
  | vunsafePtr t a =>
    have h2 := Except.ok.inj h
    subst h2
    rfl

theorem typeNamePrint_err (s : DumpState) (v : GoVal) (e : DumpErr)
    (h : typeNamePrint s v = .error e) :
    e = .fault .indexRange ∨ e = .fault .invalidCall := by
  have hone : ∀ (w : GoVal) (f : (String × DumpState) → Except DumpErr (DumpState × Bool)),
      (∀ q, f q = .error e → False) →
      exBind (k8sType s w) f = .error e
        → e = .fault .indexRange ∨ e = .fault .invalidCall := by
    intro w f hf hk
    rcases (exBind_error_iff _ _ _).mp hk with h1 | ⟨q, hq, h2⟩
    · exact Or.inl (k8sType_err s w e h1)
    · exact absurd h2 (fun hx => hf q hx)
  cases v with
  | vslice t inil es =>
    simp only [typeNamePrint] at h
    split at h
    · simp at h
      exact Or.inl h.symm
    · split at h
      · simp at h
      · exact hone _ _ (fun q hx => by simp at hx) h
  | varray t es =>
    simp only [typeNamePrint] at h
    split at h
    · simp at h
      exact Or.inl h.symm
    · split at h
      · simp at h
      · exact hone _ _ (fun q hx => by simp at hx) h
  | vmap t inil es =>
    simp only [typeNamePrint] at h
    exact hone _ _ (fun q hx => by simp at hx) h
  | viface t inner =>
    simp only [typeNamePrint] at h
    split at h
    · split at h
      · simp at h
      · simp at h
        exact Or.inr h.symm
    · exact hone _ _ (fun q hx => by simp at hx) h
  | vstruct t fs mj st =>
    simp only [typeNamePrint] at h
    split at h
    · split at h
      · simp at h
      · simp at h
        exact Or.inr h.symm
    · exact hone _ _ (fun q hx => by simp at hx) h
  | invalid => simp [typeNamePrint] at h
  | vbool t b => simp [typeNamePrint] at h
  | vint t x => simp [typeNamePrint] at h
  | vuint t b x => simp [typeNamePrint] at h
  | vuintptr t x => simp [typeNamePrint] at h
  | vfloat t b x => simp [typeNamePrint] at h
  | vcomplex t b x y => simp [typeNamePrint] at h
  | vstring t str => simp [typeNamePrint] at h
  | vptr t oa => simp [typeNamePrint] at h
  | vchan t a => simp [typeNamePrint] at h
  | vfunc t a => simp [typeNamePrint] at h
  | vunsafePtr t a => simp [typeNamePrint] at h

theorem typeStep_ok_depth (cfg : ConfigState) (s : DumpState) (v : GoVal)
    (p : DumpState × Bool) (h : typeStep cfg s v = .ok p) :
    p.1.depth = s.depth := by
  simp only [typeStep] at h
  split at h
  · have h2 := Except.ok.inj h
    subst h2
    rfl
  · obtain ⟨s1, hi, h2⟩ := (exBind_ok_iff _ _ _).mp h
    obtain ⟨q, hq, h3⟩ := (exBind_ok_iff _ _ _).mp h2
    have hd1 := indent_ok_depth cfg s s1 hi
    have hd2 := typeNamePrint_ok_depth s1 v q hq
    split at h3
    · have h4 := Except.ok.inj h3
      subst h4
      rw [hd2, hd1]
    · have h4 := Except.ok.inj h3
      subst h4
      show (write q.1 " ").depth = s.depth
      rw [write_depth, hd2, hd1]

theorem typeStep_noneg (cfg : ConfigState) (s : DumpState) (v : GoVal)
    (hd : 0 ≤ s.depth) : typeStep cfg s v ≠ .error (.fault .negRepeat) := by
  simp only [typeStep]
  split
  · simp
  · intro h
    rcases (exBind_error_iff _ _ _).mp h with h1 | ⟨s1, hi, h2⟩
    · exact indent_noneg cfg s hd h1
    · rcases (exBind_error_iff _ _ _).mp h2 with h3 | ⟨q, hq, h4⟩
      · rcases typeNamePrint_err s1 v _ h3 with he | he <;> simp at he
      · split at h4 <;> simp at h4

theorem dumpItems_depth (dmp : DumpState → GoVal → Except DumpErr DumpState)
    (hp : DepthPres dmp) (l : List GoVal) :
    ∀ s s' : DumpState, dumpItemsGo dmp s l = .ok s' → s'.depth = s.depth := by
  induction l with
  | nil =>
    intro s s' h
    have h2 := Except.ok.inj h
    subst h2
    rfl
  | cons e rest ih =>
    intro s s' h
    obtain ⟨a, ha, hb⟩ := (exBind_ok_iff _ _ _).mp h
    have h1 := hp _ _ _ ha
    have h2 := ih _ _ hb
    rw [h2, write_depth, h1]

theorem dumpItems_noneg (dmp : DumpState → GoVal → Except DumpErr DumpState)
    (hp : DepthPres dmp) (hn : NoNegFault dmp) (l : List GoVal) :
    ∀ s : DumpState, 0 ≤ s.depth →
      dumpItemsGo dmp s l ≠ .error (.fault .negRepeat) := by
  induction l with
  | nil => intro s _; simp [dumpItemsGo]
  | cons e rest ih =>
    intro s hs h
    rcases (exBind_error_iff _ _ _).mp h with h1 | ⟨a, ha, hb⟩
    · exact hn _ _ hs h1
    · have h1 := hp _ _ _ ha
      have h2 : 0 ≤ (write a ",\n").depth := by rw [write_depth, h1]; exact hs
      exact ih _ h2 hb

theorem dumpMapEntries_depth
    (dmp : DumpState → GoVal → Except DumpErr DumpState)
    (hp : DepthPres dmp) (l : List (GoVal × GoVal)) :
    ∀ s s' : DumpState,
      dumpMapEntriesGo dmp s l = .ok s' → s'.depth = s.depth := by
  induction l with
  | nil =>
    intro s s' h
    have h2 := Except.ok.inj h
    subst h2
    rfl
  | cons e rest ih =>
    intro s s' h
    obtain ⟨a, ha, hb⟩ := (exBind_ok_iff _ _ _).mp h
    obtain ⟨b, hb1, hb2⟩ := (exBind_ok_iff _ _ _).mp hb
    have h1 := hp _ _ _ ha
    have h2 := hp _ _ _ hb1
    have h3 := ih _ _ hb2
    rw [h3, write_depth, h2]
    show ({ write a ": " with ignoreNextIndent := true } : DumpState).depth
      = s.depth
    rw [show ({ write a ": " with ignoreNextIndent := true } : DumpState).depth
      = a.depth from rfl, h1]

theorem dumpMapEntries_noneg
    (dmp : DumpState → GoVal → Except DumpErr DumpState)
    (hp : DepthPres dmp) (hn : NoNegFault dmp) (l : List (GoVal × GoVal)) :
    ∀ s : DumpState, 0 ≤ s.depth →
      dumpMapEntriesGo dmp s l ≠ .error (.fault .negRepeat) := by
  induction l with
  | nil => intro s _; simp [dumpMapEntriesGo]
  | cons e rest ih =>
    intro s hs h
    rcases (exBind_error_iff _ _ _).mp h with h1 | ⟨a, ha, hb⟩
    · exact hn _ _ hs h1
    · have h1 := hp _ _ _ ha
      have ha2 : 0 ≤ ({ write a ": " with ignoreNextIndent := true }
          : DumpState).depth := by
        rw [show ({ write a ": " with ignoreNextIndent := true }
          : DumpState).depth = a.depth from rfl, h1]
        exact hs
      rcases (exBind_error_iff _ _ _).mp hb with h2 | ⟨b, hb1, hb2⟩
      · exact hn _ _ ha2 h2
      · have h2 := hp _ _ _ hb1
        have hb3 : 0 ≤ (write b ",\n").depth := by
          rw [write_depth, h2]
          exact ha2
        exact ih _ hb3 hb2

theorem dumpFields_depth (dmp : DumpState → GoVal → Except DumpErr DumpState)
    (cfg : ConfigState) (hp : DepthPres dmp) (l : List (String × GoVal)) :
    ∀ s s' : DumpState,
      dumpFieldsGo dmp cfg s l = .ok s' → s'.depth = s.depth := by
  induction l with
  | nil =>
    intro s s' h
    have h2 := Except.ok.inj h
    subst h2
    rfl
  | cons f rest ih =>
    intro s s' h
    obtain ⟨name, fv⟩ := f
    simp only [dumpFieldsGo] at h
    split at h
    · exact ih _ _ h
    · obtain ⟨a, ha, hb⟩ := (exBind_ok_iff _ _ _).mp h
      obtain ⟨b, hb1, hb2⟩ := (exBind_ok_iff _ _ _).mp hb
      have h1 := indent_ok_depth _ _ _ ha
      have h2 := hp _ _ _ hb1
      have h3 := ih _ _ hb2
      rw [h3, write_depth, h2]
      rw [show ({ write a (name ++ ": ") with ignoreNextIndent := true }
        : DumpState).depth = a.depth from rfl, h1]

theorem dumpFields_noneg (dmp : DumpState → GoVal → Except DumpErr DumpState)
    (cfg : ConfigState) (hp : DepthPres dmp) (hn : NoNegFault dmp)
    (l : List (String × GoVal)) :
    ∀ s : DumpState, 0 ≤ s.depth →
      dumpFieldsGo dmp cfg s l ≠ .error (.fault .negRepeat) := by
  induction l with
  | nil => intro s _; simp [dumpFieldsGo]
  | cons f rest ih =>
    intro s hs h
    obtain ⟨name, fv⟩ := f
    simp only [dumpFieldsGo] at h
    split at h
    · exact ih _ hs h
    · rcases (exBind_error_iff _ _ _).mp h with h1 | ⟨a, ha, hb⟩
      · exact indent_noneg _ _ hs h1
      · have h1 := indent_ok_depth _ _ _ ha
        have ha2 : 0 ≤ ({ write a (name ++ ": ") with
            ignoreNextIndent := true } : DumpState).depth := by
          rw [show ({ write a (name ++ ": ") with ignoreNextIndent := true }
            : DumpState).depth = a.depth from rfl, h1]
          exact hs
        rcases (exBind_error_iff _ _ _).mp hb with h2 | ⟨b, hb1, hb2⟩
        · exact hn _ _ ha2 h2
        · have h2 := hp _ _ _ hb1
          have hb3 : 0 ≤ (write b ",\n").depth := by
            rw [write_depth, h2]
            exact ha2
          exact ih _ hb3 hb2

theorem dumpSlice_depth (dmp : DumpState → GoVal → Except DumpErr DumpState)
    (cfg : ConfigState) (hp : DepthPres dmp) (s : DumpState) (v : GoVal)
    (s' : DumpState) (h : dumpSliceGo dmp cfg s v = .ok s') :
    s'.depth = s.depth := by
  simp only [dumpSliceGo] at h
  split at h
  · have h2 := Except.ok.inj h
    subst h2
    rfl
  · exact dumpItems_depth dmp hp _ _ _ h

theorem dumpSlice_noneg (dmp : DumpState → GoVal → Except DumpErr DumpState)
    (cfg : ConfigState) (hp : DepthPres dmp) (hn : NoNegFault dmp)
    (s : DumpState) (v : GoVal) (hs : 0 ≤ s.depth) :
    dumpSliceGo dmp cfg s v ≠ .error (.fault .negRepeat) := by
  simp only [dumpSliceGo]
  split
  · simp
  · exact dumpItems_noneg dmp hp hn _ _ hs

theorem sliceBraces_depth (dmp : DumpState → GoVal → Except DumpErr DumpState)
    (cfg : ConfigState) (hp : DepthPres dmp) (s : DumpState) (v : GoVal)
    (bs : Bool) (s' : DumpState) (h : sliceBracesGo dmp cfg s v bs = .ok s') :
    s'.depth = s.depth := by
  simp only [sliceBracesGo] at h
  generalize (if bs = true then "(" else "\x7b\n") = os at h
  obtain ⟨a, ha, hb⟩ := (exBind_ok_iff _ _ _).mp h
  have h1 : a.depth = s.depth + 1 := by
    split at ha
    · obtain ⟨x, hx, hy⟩ := (exBind_ok_iff _ _ _).mp ha
      have hd := indent_ok_depth _ _ _ hx
      rw [← Except.ok.inj hy, write_depth, hd]
      rfl
    · rw [dumpSlice_depth dmp cfg hp _ _ _ ha]
      rfl
  obtain ⟨b, hb1, hb2⟩ := (exBind_ok_iff _ _ _).mp hb
  have h2 : b.depth = s.depth := by
    split at hb1
    · have hd := indent_ok_depth _ _ _ hb1
      rw [hd]
      show a.depth - 1 = s.depth
      omega
    · rw [← Except.ok.inj hb1]
      show a.depth - 1 = s.depth
      omega
  rw [← Except.ok.inj hb2, write_depth, h2]

theorem sliceBraces_noneg (dmp : DumpState → GoVal → Except DumpErr DumpState)
    (cfg : ConfigState) (hp : DepthPres dmp) (hn : NoNegFault dmp)
    (s : DumpState) (v : GoVal) (bs : Bool) (hs : 0 ≤ s.depth) :
    sliceBracesGo dmp cfg s v bs ≠ .error (.fault .negRepeat) := by
  simp only [sliceBracesGo]
  generalize (if bs = true then "(" else "\x7b\n") = os
  intro h
  rcases (exBind_error_iff _ _ _).mp h with h1 | ⟨a, ha, hb⟩
  · have hs1 : (0 : Int) ≤ s.depth + 1 := by omega
    split at h1
    · rcases (exBind_error_iff _ _ _).mp h1 with h2 | ⟨x, hx, hy⟩
      · exact indent_noneg _ _ (by simpa [write_depth] using hs1) h2
      · simp at hy
    · exact dumpSlice_noneg dmp cfg hp hn _ _
        (by simpa [write_depth] using hs1) h1
  · have h1 : a.depth = s.depth + 1 := by
      split at ha
      · obtain ⟨x, hx, hy⟩ := (exBind_ok_iff _ _ _).mp ha
        have hd := indent_ok_depth _ _ _ hx
        rw [← Except.ok.inj hy, write_depth, hd]
        rfl
      · rw [dumpSlice_depth dmp cfg hp _ _ _ ha]
        rfl
    rcases (exBind_error_iff _ _ _).mp hb with h2 | ⟨b, hb1, hb2⟩
    · split at h2
      · refine indent_noneg _ _ ?_ h2
        show (0 : Int) ≤ a.depth - 1
        omega
      · simp at h2
    · split at hb2
      all_goals simp at hb2

theorem block_tail_depth (cfg : ConfigState) (d : Int)
    (m : Except DumpErr DumpState) (cs : String)
    (hm : ∀ a, m = .ok a → a.depth = d + 1) (s' : DumpState)
    (h : exBind m (fun x =>
      exBind (indent cfg { x with depth := x.depth - 1 }) fun y =>
        .ok (write y cs)) = .ok s') :
    s'.depth = d := by
  obtain ⟨a, ha, hb⟩ := (exBind_ok_iff _ _ _).mp h
  obtain ⟨b, hb1, hb2⟩ := (exBind_ok_iff _ _ _).mp hb
  have h1 := hm a ha
  have h2 := indent_ok_depth _ _ _ hb1
  rw [← Except.ok.inj hb2, write_depth, h2]
  show a.depth - 1 = d
  omega

theorem block_tail_noneg (cfg : ConfigState) (d : Int)
    (m : Except DumpErr DumpState) (cs : String)
    (hme : m ≠ .error (.fault .negRepeat))
    (hmd : ∀ a, m = .ok a → a.depth = d + 1) (hd : 0 ≤ d) :
    exBind m (fun x =>
      exBind (indent cfg { x with depth := x.depth - 1 }) fun y =>
        .ok (write y cs)) ≠ .error (.fault .negRepeat) := by
  intro h
  rcases (exBind_error_iff _ _ _).mp h with h1 | ⟨a, ha, hb⟩
  · exact hme h1
  · rcases (exBind_error_iff _ _ _).mp hb with h2 | ⟨b, hb1, hb2⟩
    · refine indent_noneg _ _ ?_ h2
      show (0 : Int) ≤ a.depth - 1
      have := hmd a ha
      omega
    · simp at hb2


theorem dumpGo_depth (dp dmp : DumpState → GoVal → Except DumpErr DumpState)
    (cfg : ConfigState) (hdp : DepthPres dp) (hdmp : DepthPres dmp) :
    DepthPres (dumpGo dp dmp cfg) := by
  intro s v s' h
  cases v with
  | invalid =>
    have h2 := Except.ok.inj h
    subst h2
    rfl
  | vptr t oa =>
    obtain ⟨a, ha, hb⟩ := (exBind_ok_iff _ _ _).mp h
    rw [hdp _ _ _ hb, indent_ok_depth _ _ _ ha]
  | vbool t b =>
    simp only [dumpGo] at h
    cases hT : typeStep cfg s (GoVal.vbool t b) with
    | error e =>
      rw [hT] at h
      exact absurd h (by simp)
    | ok p =>
      simp only [hT, exBind_ok] at h
      have hdT := typeStep_ok_depth _ _ _ _ hT
      cases hh : (if ¬cfg.DisableMethods ∧ ¬isIfaceKind (GoVal.vbool t b)
          then handleMethods (GoVal.vbool t b) else none) with
      | some txt =>
        simp only [hh] at h
        rw [← Except.ok.inj h, write_depth]
        exact hdT
      | none =>
        simp only [hh] at h
        rw [← Except.ok.inj h, write_depth]
        exact hdT
  | vint t x =>
    simp only [dumpGo] at h
    cases hT : typeStep cfg s (GoVal.vint t x) with
    | error e =>
      rw [hT] at h
      exact absurd h (by simp)
    | ok p =>
      simp only [hT, exBind_ok] at h
      have hdT := typeStep_ok_depth _ _ _ _ hT
      cases hh : (if ¬cfg.DisableMethods ∧ ¬isIfaceKind (GoVal.vint t x)
          then handleMethods (GoVal.vint t x) else none) with
      | some txt =>
        simp only [hh] at h
        rw [← Except.ok.inj h, write_depth]
        exact hdT
      | none =>
        simp only [hh] at h
        rw [← Except.ok.inj h, write_depth]
        exact hdT
  | vuint t b x =>
    simp only [dumpGo] at h
    cases hT : typeStep cfg s (GoVal.vuint t b x) with
    | error e =>
      rw [hT] at h
      exact absurd h (by simp)
    | ok p =>
      simp only [hT, exBind_ok] at h
      have hdT := typeStep_ok_depth _ _ _ _ hT
      cases hh : (if ¬cfg.DisableMethods ∧ ¬isIfaceKind (GoVal.vuint t b x)
          then handleMethods (GoVal.vuint t b x) else none) with
      | some txt =>
        simp only [hh] at h
        rw [← Except.ok.inj h, write_depth]
        exact hdT
      | none =>
        simp only [hh] at h
        rw [← Except.ok.inj h, write_depth]
        exact hdT
  | vuintptr t x =>
    simp only [dumpGo] at h
    cases hT : typeStep cfg s (GoVal.vuintptr t x) with
    | error e =>
      rw [hT] at h
      exact absurd h (by simp)
    | ok p =>
      simp only [hT, exBind_ok] at h
      have hdT := typeStep_ok_depth _ _ _ _ hT
      cases hh : (if ¬cfg.DisableMethods ∧ ¬isIfaceKind (GoVal.vuintptr t x)
          then handleMethods (GoVal.vuintptr t x) else none) with
      | some txt =>
        simp only [hh] at h
        rw [← Except.ok.inj h, write_depth]
        exact hdT
      | none =>
        simp only [hh] at h
        rw [← Except.ok.inj h, write_depth]
        exact hdT
  | vfloat t b x =>
    simp only [dumpGo] at h
    cases hT : typeStep cfg s (GoVal.vfloat t b x) with
    | error e =>
      rw [hT] at h
      exact absurd h (by simp)
    | ok p =>
      simp only [hT, exBind_ok] at h
      have hdT := typeStep_ok_depth _ _ _ _ hT
      cases hh : (if ¬cfg.DisableMethods ∧ ¬isIfaceKind (GoVal.vfloat t b x)
          then handleMethods (GoVal.vfloat t b x) else none) with
      | some txt =>
        simp only [hh] at h
        rw [← Except.ok.inj h, write_depth]
        exact hdT
      | none =>
        simp only [hh] at h
        rw [← Except.ok.inj h, write_depth]
        exact hdT
  | vcomplex t b x y =>
    simp only [dumpGo] at h
    cases hT : typeStep cfg s (GoVal.vcomplex t b x y) with
    | error e =>
      rw [hT] at h
      exact absurd h (by simp)
    | ok p =>
      simp only [hT, exBind_ok] at h
      have hdT := typeStep_ok_depth _ _ _ _ hT
      cases hh : (if ¬cfg.DisableMethods ∧ ¬isIfaceKind (GoVal.vcomplex t b x y)
          then handleMethods (GoVal.vcomplex t b x y) else none) with
      | some txt =>
        simp only [hh] at h
        rw [← Except.ok.inj h, write_depth]
        exact hdT
      | none =>
        simp only [hh] at h
        rw [← Except.ok.inj h, write_depth]
        exact hdT
  | vchan t a =>
    simp only [dumpGo] at h
    cases hT : typeStep cfg s (GoVal.vchan t a) with
    | error e =>
      rw [hT] at h
      exact absurd h (by simp)
    | ok p =>
      simp only [hT, exBind_ok] at h
      have hdT := typeStep_ok_depth _ _ _ _ hT
      cases hh : (if ¬cfg.DisableMethods ∧ ¬isIfaceKind (GoVal.vchan t a)
          then handleMethods (GoVal.vchan t a) else none) with
      | some txt =>
        simp only [hh] at h
        rw [← Except.ok.inj h, write_depth]
        exact hdT
      | none =>
        simp only [hh] at h
        rw [← Except.ok.inj h, write_depth]
        exact hdT
  | vfunc t a =>
    simp only [dumpGo] at h
    cases hT : typeStep cfg s (GoVal.vfunc t a) with
    | error e =>
      rw [hT] at h
      exact absurd h (by simp)
    | ok p =>
      simp only [hT, exBind_ok] at h
      have hdT := typeStep_ok_depth _ _ _ _ hT
      cases hh : (if ¬cfg.DisableMethods ∧ ¬isIfaceKind (GoVal.vfunc t a)
          then handleMethods (GoVal.vfunc t a) else none) with
      | some txt =>
        simp only [hh] at h
        rw [← Except.ok.inj h, write_depth]
        exact hdT
      | none =>
        simp only [hh] at h
        rw [← Except.ok.inj h, write_depth]
        exact hdT
  | vunsafePtr t a =>
    simp only [dumpGo] at h
    cases hT : typeStep cfg s (GoVal.vunsafePtr t a) with
    | error e =>
      rw [hT] at h
      exact absurd h (by simp)
    | ok p =>
      simp only [hT, exBind_ok] at h
      have hdT := typeStep_ok_depth _ _ _ _ hT
      cases hh : (if ¬cfg.DisableMethods ∧ ¬isIfaceKind (GoVal.vunsafePtr t a)
          then handleMethods (GoVal.vunsafePtr t a) else none) with
      | some txt =>
        simp only [hh] at h
        rw [← Except.ok.inj h, write_depth]
        exact hdT
      | none =>
        simp only [hh] at h
        rw [← Except.ok.inj h, write_depth]
        exact hdT
  | vstring t str =>
    simp only [dumpGo] at h
    cases hT : typeStep cfg s (GoVal.vstring t str) with
    | error e =>
      rw [hT] at h
      exact absurd h (by simp)
    | ok p =>
      simp only [hT, exBind_ok] at h
      have hdT := typeStep_ok_depth _ _ _ _ hT
      cases hh : (if ¬cfg.DisableMethods ∧ ¬isIfaceKind (GoVal.vstring t str)
          then handleMethods (GoVal.vstring t str) else none) with
      | some txt =>
        simp only [hh] at h
        rw [← Except.ok.inj h, write_depth]
        exact hdT
      | none =>
        simp only [hh] at h
        split at h <;> (rw [← Except.ok.inj h, write_depth]; exact hdT)
  | viface t inner =>
    simp only [dumpGo] at h
    cases hT : typeStep cfg s (GoVal.viface t inner) with
    | error e =>
      rw [hT] at h
      exact absurd h (by simp)
    | ok p =>
      simp only [hT, exBind_ok] at h
      have hdT := typeStep_ok_depth _ _ _ _ hT
      cases hh : (if ¬cfg.DisableMethods ∧ ¬isIfaceKind (GoVal.viface t inner)
          then handleMethods (GoVal.viface t inner) else none) with
      | some txt =>
        simp only [hh] at h
        rw [← Except.ok.inj h, write_depth]
        exact hdT
      | none =>
        simp only [hh] at h
        split at h
        · rw [← Except.ok.inj h, write_depth]
          exact hdT
        · rw [← Except.ok.inj h]
          exact hdT
  | vslice t inil es =>
    simp only [dumpGo] at h
    cases hT : typeStep cfg s (GoVal.vslice t inil es) with
    | error e =>
      rw [hT] at h
      exact absurd h (by simp)
    | ok p =>
      simp only [hT, exBind_ok] at h
      have hdT := typeStep_ok_depth _ _ _ _ hT
      cases hh : (if ¬cfg.DisableMethods
          ∧ ¬isIfaceKind (GoVal.vslice t inil es)
          then handleMethods (GoVal.vslice t inil es) else none) with
      | some txt =>
        simp only [hh] at h
        rw [← Except.ok.inj h, write_depth]
        exact hdT
      | none =>
        simp only [hh] at h
        split at h
        · rw [← Except.ok.inj h, write_depth]
          exact hdT
        · rw [sliceBraces_depth dmp cfg hdmp _ _ _ _ h]
          exact hdT
  | varray t es =>
    simp only [dumpGo] at h
    cases hT : typeStep cfg s (GoVal.varray t es) with
    | error e =>
      rw [hT] at h
      exact absurd h (by simp)
    | ok p =>
      simp only [hT, exBind_ok] at h
      have hdT := typeStep_ok_depth _ _ _ _ hT
      cases hh : (if ¬cfg.DisableMethods ∧ ¬isIfaceKind (GoVal.varray t es)
          then handleMethods (GoVal.varray t es) else none) with
      | some txt =>
        simp only [hh] at h
        rw [← Except.ok.inj h, write_depth]
        exact hdT
      | none =>
        simp only [hh] at h
        rw [sliceBraces_depth dmp cfg hdmp _ _ _ _ h]
        exact hdT
  | vmap t inil entries =>
    simp only [dumpGo] at h
    cases hT : typeStep cfg s (GoVal.vmap t inil entries) with
    | error e =>
      rw [hT] at h
      exact absurd h (by simp)
    | ok p =>
      simp only [hT, exBind_ok] at h
      have hdT := typeStep_ok_depth _ _ _ _ hT
      cases hh : (if ¬cfg.DisableMethods
          ∧ ¬isIfaceKind (GoVal.vmap t inil entries)
          then handleMethods (GoVal.vmap t inil entries) else none) with
      | some txt =>
        simp only [hh] at h
        rw [← Except.ok.inj h, write_depth]
        exact hdT
      | none =>
        simp only [hh] at h
        split at h
        · rw [← Except.ok.inj h, write_depth]
          exact hdT
        · refine block_tail_depth cfg s.depth _ _ ?_ s' h
          intro a ha
          split at ha
          · obtain ⟨x, hx, hy⟩ := (exBind_ok_iff _ _ _).mp ha
            rw [← Except.ok.inj hy, write_depth, indent_ok_depth _ _ _ hx]
            show p.1.depth + 1 = s.depth + 1
            rw [hdT]
          · rw [dumpMapEntries_depth dmp hdmp _ _ _ ha]
            show p.1.depth + 1 = s.depth + 1
            rw [hdT]
  | vstruct t fs mj st =>
    simp only [dumpGo] at h
    cases hT : typeStep cfg s (GoVal.vstruct t fs mj st) with
    | error e =>
      rw [hT] at h
      exact absurd h (by simp)
    | ok p =>
      simp only [hT, exBind_ok] at h
      have hdT := typeStep_ok_depth _ _ _ _ hT
      cases hh : (if ¬cfg.DisableMethods
          ∧ ¬isIfaceKind (GoVal.vstruct t fs mj st)
          then handleMethods (GoVal.vstruct t fs mj st) else none) with
      | some txt =>
        simp only [hh] at h
        rw [← Except.ok.inj h, write_depth]
        exact hdT
      | none =>
        simp only [hh] at h
        split at h
        · refine block_tail_depth cfg s.depth _ _ ?_ s' h
          intro a ha
          split at ha
          · obtain ⟨x, hx, hy⟩ := (exBind_ok_iff _ _ _).mp ha
            rw [← Except.ok.inj hy, write_depth, indent_ok_depth _ _ _ hx]
            show p.1.depth + 1 = s.depth + 1
            rw [hdT]
          · rw [dumpFields_depth dmp cfg hdmp _ _ _ ha]
            show p.1.depth + 1 = s.depth + 1
            rw [hdT]
        · rw [← Except.ok.inj h]
          exact hdT

theorem dumpGo_noneg (dp dmp : DumpState → GoVal → Except DumpErr DumpState)
    (cfg : ConfigState) (hdpp : DepthPres dp) (hdpn : NoNegFault dp)
    (hdmpp : DepthPres dmp) (hdmpn : NoNegFault dmp) :
    NoNegFault (dumpGo dp dmp cfg) := by
  intro s v hs h
  cases v with
  | invalid => simp [dumpGo] at h
  | vptr t oa =>
    rcases (exBind_error_iff _ _ _).mp h with h1 | ⟨a, ha, hb⟩
    · exact indent_noneg _ _ hs h1
    · refine hdpn a _ ?_ hb
      rw [indent_ok_depth _ _ _ ha]
      exact hs
  | vbool t b =>
    simp only [dumpGo] at h
    cases hT : typeStep cfg s (GoVal.vbool t b) with
    | error e =>
      exact typeStep_noneg cfg s (GoVal.vbool t b) hs
        (Except.error.inj (hT ▸ h) ▸ hT)
    | ok p =>
      simp only [hT, exBind_ok] at h
      have hdT := typeStep_ok_depth _ _ _ _ hT
      have hs2 : (0 : Int) ≤ p.1.depth := by rw [hdT]; exact hs
      cases hh : (if ¬cfg.DisableMethods ∧ ¬isIfaceKind (GoVal.vbool t b)
          then handleMethods (GoVal.vbool t b) else none) with
      | some txt =>
        simp only [hh] at h
        simp at h
      | none =>
        simp only [hh] at h
        simp at h
  | vint t x =>
    simp only [dumpGo] at h
    cases hT : typeStep cfg s (GoVal.vint t x) with
    | error e =>
      exact typeStep_noneg cfg s (GoVal.vint t x) hs
        (Except.error.inj (hT ▸ h) ▸ hT)
    | ok p =>
      simp only [hT, exBind_ok] at h
      have hdT := typeStep_ok_depth _ _ _ _ hT
      have hs2 : (0 : Int) ≤ p.1.depth := by rw [hdT]; exact hs
      cases hh : (if ¬cfg.DisableMethods ∧ ¬isIfaceKind (GoVal.vint t x)
          then handleMethods (GoVal.vint t x) else none) with
      | some txt =>
        simp only [hh] at h
        simp at h
      | none =>
        simp only [hh] at h
        simp at h
  | vuint t b x =>
    simp only [dumpGo] at h
    cases hT : typeStep cfg s (GoVal.vuint t b x) with
    | error e =>
      exact typeStep_noneg cfg s (GoVal.vuint t b x) hs
        (Except.error.inj (hT ▸ h) ▸ hT)
    | ok p =>
      simp only [hT, exBind_ok] at h
      have hdT := typeStep_ok_depth _ _ _ _ hT
      have hs2 : (0 : Int) ≤ p.1.depth := by rw [hdT]; exact hs
      cases hh : (if ¬cfg.DisableMethods ∧ ¬isIfaceKind (GoVal.vuint t b x)
          then handleMethods (GoVal.vuint t b x) else none) with
      | some txt =>
        simp only [hh] at h
        simp at h
      | none =>
        simp only [hh] at h
        simp at h
  | vuintptr t x =>
    simp only [dumpGo] at h
    cases hT : typeStep cfg s (GoVal.vuintptr t x) with
    | error e =>
      exact typeStep_noneg cfg s (GoVal.vuintptr t x) hs
        (Except.error.inj (hT ▸ h) ▸ hT)
    | ok p =>
      simp only [hT, exBind_ok] at h
      have hdT := typeStep_ok_depth _ _ _ _ hT
      have hs2 : (0 : Int) ≤ p.1.depth := by rw [hdT]; exact hs
      cases hh : (if ¬cfg.DisableMethods ∧ ¬isIfaceKind (GoVal.vuintptr t x)
          then handleMethods (GoVal.vuintptr t x) else none) with
      | some txt =>
        simp only [hh] at h
        simp at h
      | none =>
        simp only [hh] at h
        simp at h
  | vfloat t b x =>
    simp only [dumpGo] at h
    cases hT : typeStep cfg s (GoVal.vfloat t b x) with
    | error e =>
      exact typeStep_noneg cfg s (GoVal.vfloat t b x) hs
        (Except.error.inj (hT ▸ h) ▸ hT)
    | ok p =>
      simp only [hT, exBind_ok] at h
      have hdT := typeStep_ok_depth _ _ _ _ hT
      have hs2 : (0 : Int) ≤ p.1.depth := by rw [hdT]; exact hs
      cases hh : (if ¬cfg.DisableMethods ∧ ¬isIfaceKind (GoVal.vfloat t b x)
          then handleMethods (GoVal.vfloat t b x) else none) with
      | some txt =>
        simp only [hh] at h
        simp at h
      | none =>
        simp only [hh] at h
        simp at h
  | vcomplex t b x y =>
    simp only [dumpGo] at h
    cases hT : typeStep cfg s (GoVal.vcomplex t b x y) with
    | error e =>
      exact typeStep_noneg cfg s (GoVal.vcomplex t b x y) hs
        (Except.error.inj (hT ▸ h) ▸ hT)
    | ok p =>
      simp only [hT, exBind_ok] at h
      have hdT := typeStep_ok_depth _ _ _ _ hT
      have hs2 : (0 : Int) ≤ p.1.depth := by rw [hdT]; exact hs
      cases hh : (if ¬cfg.DisableMethods ∧ ¬isIfaceKind (GoVal.vcomplex t b x y)
          then handleMethods (GoVal.vcomplex t b x y) else none) with
      | some txt =>
        simp only [hh] at h
        simp at h
      | none =>
        simp only [hh] at h
        simp at h
  | vchan t a =>
    simp only [dumpGo] at h
    cases hT : typeStep cfg s (GoVal.vchan t a) with
    | error e =>
      exact typeStep_noneg cfg s (GoVal.vchan t a) hs
        (Except.error.inj (hT ▸ h) ▸ hT)
    | ok p =>
      simp only [hT, exBind_ok] at h
      have hdT := typeStep_ok_depth _ _ _ _ hT
      have hs2 : (0 : Int) ≤ p.1.depth := by rw [hdT]; exact hs
      cases hh : (if ¬cfg.DisableMethods ∧ ¬isIfaceKind (GoVal.vchan t a)
          then handleMethods (GoVal.vchan t a) else none) with
      | some txt =>
        simp only [hh] at h
        simp at h
      | none =>
        simp only [hh] at h
        simp at h
  | vfunc t a =>
    simp only [dumpGo] at h
    cases hT : typeStep cfg s (GoVal.vfunc t a) with
    | error e =>
      exact typeStep_noneg cfg s (GoVal.vfunc t a) hs
        (Except.error.inj (hT ▸ h) ▸ hT)
    | ok p =>
      simp only [hT, exBind_ok] at h
      have hdT := typeStep_ok_depth _ _ _ _ hT
      have hs2 : (0 : Int) ≤ p.1.depth := by rw [hdT]; exact hs
      cases hh : (if ¬cfg.DisableMethods ∧ ¬isIfaceKind (GoVal.vfunc t a)
          then handleMethods (GoVal.vfunc t a) else none) with
      | some txt =>
        simp only [hh] at h
        simp at h
      | none =>
        simp only [hh] at h
        simp at h
  | vunsafePtr t a =>
    simp only [dumpGo] at h
    cases hT : typeStep cfg s (GoVal.vunsafePtr t a) with
    | error e =>
      exact typeStep_noneg cfg s (GoVal.vunsafePtr t a) hs
        (Except.error.inj (hT ▸ h) ▸ hT)
    | ok p =>
      simp only [hT, exBind_ok] at h
      have hdT := typeStep_ok_depth _ _ _ _ hT
      have hs2 : (0 : Int) ≤ p.1.depth := by rw [hdT]; exact hs
      cases hh : (if ¬cfg.DisableMethods ∧ ¬isIfaceKind (GoVal.vunsafePtr t a)
          then handleMethods (GoVal.vunsafePtr t a) else none) with
      | some txt =>
        simp only [hh] at h
        simp at h
      | none =>
        simp only [hh] at h
        simp at h
  | vstring t str =>
    simp only [dumpGo] at h
    cases hT : typeStep cfg s (GoVal.vstring t str) with
    | error e =>
      exact typeStep_noneg cfg s (GoVal.vstring t str) hs
        (Except.error.inj (hT ▸ h) ▸ hT)
    | ok p =>
      simp only [hT, exBind_ok] at h
      have hdT := typeStep_ok_depth _ _ _ _ hT
      have hs2 : (0 : Int) ≤ p.1.depth := by rw [hdT]; exact hs
      cases hh : (if ¬cfg.DisableMethods ∧ ¬isIfaceKind (GoVal.vstring t str)
          then handleMethods (GoVal.vstring t str) else none) with
      | some txt =>
        simp only [hh] at h
        simp at h
      | none =>
        simp only [hh] at h
        split at h <;> simp at h
  | viface t inner =>
    simp only [dumpGo] at h
    cases hT : typeStep cfg s (GoVal.viface t inner) with
    | error e =>
      exact typeStep_noneg cfg s (GoVal.viface t inner) hs
        (Except.error.inj (hT ▸ h) ▸ hT)
    | ok p =>
      simp only [hT, exBind_ok] at h
      have hdT := typeStep_ok_depth _ _ _ _ hT
      have hs2 : (0 : Int) ≤ p.1.depth := by rw [hdT]; exact hs
      cases hh : (if ¬cfg.DisableMethods ∧ ¬isIfaceKind (GoVal.viface t inner)
          then handleMethods (GoVal.viface t inner) else none) with
      | some txt =>
        simp only [hh] at h
        simp at h
      | none =>
        simp only [hh] at h
        split at h <;> simp at h
  | vslice t inil es =>
    simp only [dumpGo] at h
    cases hT : typeStep cfg s (GoVal.vslice t inil es) with
    | error e =>
      exact typeStep_noneg cfg s (GoVal.vslice t inil es) hs
        (Except.error.inj (hT ▸ h) ▸ hT)
    | ok p =>
      simp only [hT, exBind_ok] at h
      have hdT := typeStep_ok_depth _ _ _ _ hT
      have hs2 : (0 : Int) ≤ p.1.depth := by rw [hdT]; exact hs
      cases hh : (if ¬cfg.DisableMethods ∧ ¬isIfaceKind (GoVal.vslice t inil es)
          then handleMethods (GoVal.vslice t inil es) else none) with
      | some txt =>
        simp only [hh] at h
        simp at h
      | none =>
        simp only [hh] at h
        split at h
        · simp at h
        · refine sliceBraces_noneg dmp cfg hdmpp hdmpn _ _ _ ?_ h
          exact hs2
  | varray t es =>
    simp only [dumpGo] at h
    cases hT : typeStep cfg s (GoVal.varray t es) with
    | error e =>
      exact typeStep_noneg cfg s (GoVal.varray t es) hs
        (Except.error.inj (hT ▸ h) ▸ hT)
    | ok p =>
      simp only [hT, exBind_ok] at h
      have hdT := typeStep_ok_depth _ _ _ _ hT
      have hs2 : (0 : Int) ≤ p.1.depth := by rw [hdT]; exact hs
      cases hh : (if ¬cfg.DisableMethods ∧ ¬isIfaceKind (GoVal.varray t es)
          then handleMethods (GoVal.varray t es) else none) with
      | some txt =>
        simp only [hh] at h
        simp at h
      | none =>
        simp only [hh] at h
        refine sliceBraces_noneg dmp cfg hdmpp hdmpn _ _ _ ?_ h
        exact hs2
  | vmap t inil entries =>
    simp only [dumpGo] at h
    cases hT : typeStep cfg s (GoVal.vmap t inil entries) with
    | error e =>
      exact typeStep_noneg cfg s (GoVal.vmap t inil entries) hs
        (Except.error.inj (hT ▸ h) ▸ hT)
    | ok p =>
      simp only [hT, exBind_ok] at h
      have hdT := typeStep_ok_depth _ _ _ _ hT
      have hs2 : (0 : Int) ≤ p.1.depth := by rw [hdT]; exact hs
      cases hh : (if ¬cfg.DisableMethods ∧ ¬isIfaceKind (GoVal.vmap t inil entries)
          then handleMethods (GoVal.vmap t inil entries) else none) with
      | some txt =>
        simp only [hh] at h
        simp at h
      | none =>
        simp only [hh] at h
        split at h
        · simp at h
        · refine block_tail_noneg cfg s.depth _ _ ?_ ?_ hs h
          · intro ha
            split at ha
            · rcases (exBind_error_iff _ _ _).mp ha with h1 | ⟨x, hx, hy⟩
              · refine indent_noneg _ _ ?_ h1
                show (0 : Int) ≤ p.1.depth + 1
                omega
              · simp at hy
            · refine dumpMapEntries_noneg dmp hdmpp hdmpn _ _ ?_ ha
              show (0 : Int) ≤ p.1.depth + 1
              omega
          · intro a ha
            split at ha
            · obtain ⟨x, hx, hy⟩ := (exBind_ok_iff _ _ _).mp ha
              rw [← Except.ok.inj hy, write_depth, indent_ok_depth _ _ _ hx]
              show p.1.depth + 1 = s.depth + 1
              rw [hdT]
            · rw [dumpMapEntries_depth dmp hdmpp _ _ _ ha]
              show p.1.depth + 1 = s.depth + 1
              rw [hdT]
  | vstruct t fs mj st =>
    simp only [dumpGo] at h
    cases hT : typeStep cfg s (GoVal.vstruct t fs mj st) with
    | error e =>
      exact typeStep_noneg cfg s (GoVal.vstruct t fs mj st) hs
        (Except.error.inj (hT ▸ h) ▸ hT)
    | ok p =>
      simp only [hT, exBind_ok] at h
      have hdT := typeStep_ok_depth _ _ _ _ hT
      have hs2 : (0 : Int) ≤ p.1.depth := by rw [hdT]; exact hs
      cases hh : (if ¬cfg.DisableMethods ∧ ¬isIfaceKind (GoVal.vstruct t fs mj st)
          then handleMethods (GoVal.vstruct t fs mj st) else none) with
      | some txt =>
        simp only [hh] at h
        simp at h
      | none =>
        simp only [hh] at h
        split at h
        · refine block_tail_noneg cfg s.depth _ _ ?_ ?_ hs h
          · intro ha
            split at ha
            · rcases (exBind_error_iff _ _ _).mp ha with h1 | ⟨x, hx, hy⟩
              · refine indent_noneg _ _ ?_ h1
                show (0 : Int) ≤ p.1.depth + 1
                omega
              · simp at hy
            · refine dumpFields_noneg dmp cfg hdmpp hdmpn _ _ ?_ ha
              show (0 : Int) ≤ p.1.depth + 1
              omega
          · intro a ha
            split at ha
            · obtain ⟨x, hx, hy⟩ := (exBind_ok_iff _ _ _).mp ha
              rw [← Except.ok.inj hy, write_depth, indent_ok_depth _ _ _ hx]
              show p.1.depth + 1 = s.depth + 1
              rw [hdT]
            · rw [dumpFields_depth dmp cfg hdmpp _ _ _ ha]
              show p.1.depth + 1 = s.depth + 1
              rw [hdT]
        · simp at h

theorem ptrPrefix_depth (c : Prop) [Decidable c] (x : DumpState)
    (t : String) : (if c then write x t else x).depth = x.depth := by
  split <;> rfl

theorem dumpPtrGo_depth
    (wc : List (Nat × Int) → Int → List Nat → Nat → GoVal →
      Except DumpErr WalkRes)
    (dmp : DumpState → GoVal → Except DumpErr DumpState)
    (hdmp : DepthPres dmp) (s : DumpState) (v : GoVal) (s' : DumpState)
    (h : dumpPtrGo wc dmp s v = .ok s') : s'.depth = s.depth := by
  simp only [dumpPtrGo] at h
  obtain ⟨r, hw, hR⟩ := (exBind_ok_iff _ _ _).mp h
  split at hR
  · rw [← Except.ok.inj hR, write_depth]
  · obtain ⟨a, ha, hb⟩ := (exBind_ok_iff _ _ _).mp hR
    have hda : a.depth = s.depth := by
      split at ha
      · rw [← Except.ok.inj ha, write_depth]
      · obtain ⟨q, hq, hq2⟩ := (exBind_ok_iff _ _ _).mp ha
        obtain ⟨tn, s3⟩ := q
        rw [← Except.ok.inj hq2, write_depth]
        rw [k8sType_ok_depth _ _ tn s3 hq, write_depth, ptrPrefix_depth]
    obtain ⟨b, hb1, hb2⟩ := (exBind_ok_iff _ _ _).mp hb
    have hdb : b.depth = a.depth := by
      split at hb1
      · rw [← Except.ok.inj hb1, write_depth]
      · exact hdmp { a with ignoreNextType := true } r.ve b hb1
    split at hb2
    · rw [← Except.ok.inj hb2, write_depth, hdb, hda]
    · rw [← Except.ok.inj hb2, hdb, hda]

theorem dumpPtrGo_noneg
    (wc : List (Nat × Int) → Int → List Nat → Nat → GoVal →
      Except DumpErr WalkRes)
    (dmp : DumpState → GoVal → Except DumpErr DumpState)
    (hwe : ∀ ps d c i ve e, wc ps d c i ve = .error e → e = .fuelOut)
    (hdmp : DepthPres dmp) (hn : NoNegFault dmp) (s : DumpState) (v : GoVal)
    (hs : 0 ≤ s.depth) :
    dumpPtrGo wc dmp s v ≠ .error (.fault .negRepeat) := by
  simp only [dumpPtrGo]
  intro h
  rcases (exBind_error_iff _ _ _).mp h with h1 | ⟨r, hw, hR⟩
  · exact absurd (hwe _ _ _ _ _ _ h1) (by simp)
  · split at hR
    · simp at hR
    · rcases (exBind_error_iff _ _ _).mp hR with h2 | ⟨a, ha, hb⟩
      · split at h2
        · simp at h2
        · rcases (exBind_error_iff _ _ _).mp h2 with h3 | ⟨q, hq, hq2⟩
          · exact absurd (k8sType_err _ _ _ h3) (by simp)
          · simp at hq2
      · have hda : a.depth = s.depth := by
          split at ha
          · rw [← Except.ok.inj ha, write_depth]
          · obtain ⟨q, hq, hq2⟩ := (exBind_ok_iff _ _ _).mp ha
            obtain ⟨tn, s3⟩ := q
            rw [← Except.ok.inj hq2, write_depth]
            rw [k8sType_ok_depth _ _ tn s3 hq, write_depth, ptrPrefix_depth]
        rcases (exBind_error_iff _ _ _).mp hb with h2 | ⟨b, hb1, hb2⟩
        · split at h2
          · simp at h2
          · refine hn _ _ ?_ h2
            show (0 : Int) ≤ a.depth
            rw [hda]
            exact hs
        · split at hb2 <;> simp at hb2

theorem walk_no_fault (H : Heap) :
    ∀ (n : Nat) (m : List (Nat × Int)) (d : Int) (c : List Nat) (i : Nat)
      (ve : GoVal) (e : DumpErr),
      walkChain n H m d c i ve = .error e → e = .fuelOut := by
  intro n
  induction n with
  | zero =>
    intro m d c i ve e h
    rw [walkChain_zero] at h
    exact (Except.error.inj h).symm
  | succ k ih =>
    intro m d c i ve e h
    rw [walkChain_succ] at h
    cases ve with
    | vptr t oa =>
      cases oa with
      | none => simp [walkChainGo] at h
      | some addr =>
        simp only [walkChainGo] at h
        split at h
        · simp at h
        · split at h
          · simp at h
          · exact ih _ _ _ _ _ _ h
          · exact ih _ _ _ _ _ _ h
    | invalid => simp [walkChainGo] at h
    | vbool t b => simp [walkChainGo] at h
    | vint t x => simp [walkChainGo] at h
    | vuint t b x => simp [walkChainGo] at h
    | vuintptr t x => simp [walkChainGo] at h
    | vfloat t b x => simp [walkChainGo] at h
    | vcomplex t b x y => simp [walkChainGo] at h
    | vstring t str => simp [walkChainGo] at h
    | vslice t b es => simp [walkChainGo] at h
    | varray t es => simp [walkChainGo] at h
    | vmap t b es => simp [walkChainGo] at h
    | vstruct t fs mj st => simp [walkChainGo] at h
    | viface t inner => simp [walkChainGo] at h
    | vchan t a => simp [walkChainGo] at h
    | vfunc t a => simp [walkChainGo] at h
    | vunsafePtr t a => simp [walkChainGo] at h

theorem depth_fuel (fuel : Nat) :
    ∀ (H : Heap) (cfg : ConfigState),
      DepthPres (dump fuel H cfg) ∧ NoNegFault (dump fuel H cfg) ∧
      DepthPres (dumpPtr fuel H cfg) ∧ NoNegFault (dumpPtr fuel H cfg) := by
  induction fuel with
  | zero =>
    intro H cfg
    refine ⟨?_, ?_, ?_, ?_⟩
    · intro s v s' h
      rw [dump_zero] at h
      exact absurd h (by simp)
    · intro s v _
      rw [dump_zero]
      simp
    · intro s v s' h
      rw [dumpPtr_zero] at h
      exact absurd h (by simp)
    · intro s v _
      rw [dumpPtr_zero]
      simp
  | succ n ih =>
    intro H cfg
    obtain ⟨hd, hn, hpd, hpn⟩ := ih H cfg
    have hptrd : DepthPres (dumpPtr (n + 1) H cfg) := by
      intro s v s' h
      rw [dumpPtr_succ] at h
      exact dumpPtrGo_depth _ _ hd s v s' h
    have hptrn : NoNegFault (dumpPtr (n + 1) H cfg) := by
      intro s v hs h
      rw [dumpPtr_succ] at h
      exact dumpPtrGo_noneg _ _ (fun ps d c i ve e => walk_no_fault H n ps d c i ve e)
        hd hn s v hs h
    refine ⟨?_, ?_, hptrd, hptrn⟩
    · intro s v s' h
      rw [dump_succ] at h
      exact dumpGo_depth _ _ cfg hpd hd s v s' h
    · intro s v hs h
      rw [dump_succ] at h
      exact dumpGo_noneg _ _ cfg hpd hpn hd hn s v hs h


/-- C9: the depth counter is symmetric and non-negative -- every dump call
that returns normally restores depth to its entry value (it is incremented
exactly when a braced compound block opens and decremented before its closing
brace), and a traversal started at non-negative depth can never commit the
negative-`bytes.Repeat` fault, the observable consequence the counter going
negative would have in `indent`. -/
theorem C9_depth_symmetric_nonneg (fuel : Nat) (H : Heap)
    (cfg : ConfigState) :
    (∀ (s : DumpState) (v : GoVal) (s' : DumpState),
      dump fuel H cfg s v = .ok s' → s'.depth = s.depth) ∧
    (∀ (s : DumpState) (v : GoVal), 0 ≤ s.depth →
      dump fuel H cfg s v ≠ .error (.fault .negRepeat)) := by
  obtain ⟨h1, h2, _, _⟩ := depth_fuel fuel H cfg
  exact ⟨h1, h2⟩

/-- Witness for C9: dumping the int 7 from depth 0 succeeds, returns at
depth 0 and commits no negative-repeat fault. -/
theorem C9_witness :
    (dump 3 [] cfgD initState (.vint tyInt 7) = .ok w9) ∧
    w9.depth = initState.depth ∧
    (0 : Int) ≤ initState.depth ∧
    dump 3 [] cfgD initState (.vint tyInt 7) ≠ .error (.fault .negRepeat) :=
  ⟨rfl,
   (C9_depth_symmetric_nonneg 3 [] cfgD).1 initState (.vint tyInt 7) w9 rfl,
   by decide,
   (C9_depth_symmetric_nonneg 3 [] cfgD).2 initState (.vint tyInt 7)
     (by decide)⟩

theorem sortEntries_perm_eq (es1 es2 : List (GoVal × GoVal))
    (hperm : es1.Perm es2)
    (hnd : (es1.map (fun e => sortKeyStr e.1)).Nodup) :
    sortEntries es1 = sortEntries es2 := by
  classical
  let r := fun a b : GoVal × GoVal => sortKeyStr a.1 ≤ sortKeyStr b.1
  let rs := fun a b : GoVal × GoVal => sortKeyStr a.1 < sortKeyStr b.1
  haveI hT : IsTotal (GoVal × GoVal) r := ⟨fun a b => le_total _ _⟩
  haveI hTr : IsTrans (GoVal × GoVal) r :=
    ⟨fun a b c h1 h2 => le_trans h1 h2⟩
  have hp1 : (sortEntries es1).Perm es1 := List.perm_insertionSort r es1
  have hp2 : (sortEntries es2).Perm es2 := List.perm_insertionSort r es2
  have hps : (sortEntries es1).Perm (sortEntries es2) :=
    hp1.trans (hperm.trans hp2.symm)
  have hs1 : (sortEntries es1).Sorted r := List.sorted_insertionSort r es1
  have hs2 : (sortEntries es2).Sorted r := List.sorted_insertionSort r es2
  have hnd1 : ((sortEntries es1).map (fun e => sortKeyStr e.1)).Nodup :=
    (hp1.map _).nodup_iff.mpr hnd
  have hnd2 : ((sortEntries es2).map (fun e => sortKeyStr e.1)).Nodup :=
    ((hp2.map _).trans (hperm.map _).symm).nodup_iff.mpr hnd
  have hstrict : ∀ l : List (GoVal × GoVal), l.Sorted r →
      (l.map (fun e => sortKeyStr e.1)).Nodup → l.Sorted rs := by
    intro l hs hn
    have hpw : l.Pairwise (fun a b => sortKeyStr a.1 ≠ sortKeyStr b.1) :=
      List.pairwise_map.mp hn
    exact (hs.and hpw).imp (fun h => lt_of_le_of_ne h.1 h.2)
  haveI hA : IsAntisymm (GoVal × GoVal) rs :=
    ⟨fun a b h1 h2 => absurd (lt_trans h1 h2) (lt_irrefl _)⟩
  exact List.eq_of_perm_of_sorted hps (hstrict _ hs1 hnd1)
    (hstrict _ hs2 hnd2)

/-- C6 amended, positive part: with `sortMapKeys` enabled, the rendering of a
map value is insertion-order independent as long as the keys' sort measures
are pairwise distinct: any two entry permutations dump to the same bytes. -/
theorem C6_amended (fuel : Nat) (H : Heap) (cfg : ConfigState)
    (s : DumpState) (ty : GoType) (inil : Bool)
    (es1 es2 : List (GoVal × GoVal))
    (hperm : es1.Perm es2)
    (hnd : (es1.map (fun e => sortKeyStr e.1)).Nodup)
    (hsort : cfg.SortKeys = true) :
    dump (fuel + 1) H cfg s (.vmap ty inil es1)
      = dump (fuel + 1) H cfg s (.vmap ty inil es2) := by
  have hse := sortEntries_perm_eq es1 es2 hperm hnd
  have hk : ∀ x : DumpState,
      k8sType x (GoVal.vmap ty inil es1)
        = k8sType x (GoVal.vmap ty inil es2) := fun x => rfl
  rw [dump_succ, dump_succ]
  simp only [dumpGo, typeStep, typeNamePrint, handleMethods, hsort, if_true,
    hse, hk, ite_self]




/-- C6 counterexample: the import block is emitted by ranging over a Go map,
whose enumeration order is unspecified; with two recorded dependencies two
legitimate enumeration orders of the same merged dependency set yield
different complete outputs, so the produced text is not byte-identical across
runs. -/
theorem C6_import_order_nondeterministic :
    (fdumpArgs 6 cfgP ([], []) cw6args
      = .ok (["corev1.A \x7b\n\x7d\n", "appsv1.B \x7b\n\x7d\n"],
        cw6merged)) ∧
    cw6merged.Perm cw6merged.reverse ∧
    (∃ o1 o2 : String,
      fdumpModel 6 cfgP cw6args cw6merged = .ok o1 ∧
      fdumpModel 6 cfgP cw6args cw6merged.reverse = .ok o2 ∧
      o1 ≠ o2) :=
  ⟨rfl, by decide, ⟨_, _, rfl, rfl, by decide⟩⟩


/-- Witness for C6 amended: a two-entry int map dumped from both insertion
orders gives identical output. -/
theorem C6_witness :
    cw6es1.Perm cw6es2 ∧
    (cw6es1.map (fun e => sortKeyStr e.1)).Nodup ∧
    cfgD.SortKeys = true ∧
    dump 4 [] cfgD initState (.vmap tyMapII false cw6es1)
      = dump 4 [] cfgD initState (.vmap tyMapII false cw6es2) :=
  ⟨List.Perm.swap _ _ _, by decide, rfl,
    C6_amended 3 [] cfgD initState tyMapII false cw6es1 cw6es2
      (List.Perm.swap _ _ _) (by decide) rfl⟩

/-- A revisit of an address recorded at a strictly smaller depth stops the
indirection walk immediately, for every heap, record map, chain and amount of
fuel: the cycle result is returned without touching the heap again
(part_003 lines 112-119). -/
theorem walk_cut (fuel : Nat) (H : Heap) (m : List (Nat × Int)) (d pd : Int)
    (chain : List Nat) (ind : Nat) (ty : GoType) (addr : Nat)
    (hrec : m.lookup addr = some pd) (hlt : pd < d) :
    walkChain (fuel + 1) H m d chain ind (.vptr ty (some addr))
      = .ok ⟨false, true, ind, .vptr ty (some addr), m, chain ++ [addr]⟩ := by
  rw [walkChain_succ]
  simp only [walkChainGo, hrec, hlt, decide_True, if_true]
  rfl

set_option maxRecDepth 40000 in
/-- C3 amended, positive part: for every heap, configuration, state, fuel and
pointer chain, revisiting an address recorded at a strictly smaller depth
than the current one — the situation a back-edge re-entering below at least
one compound value creates, since descending into a compound increments the
depth — stops the indirection walk at once with `cycleFound`; the pointer
rendering then terminates without consulting the pointee, emitting the
circular-reference marker right after the type name; and the spec's two-node
struct cycle (scenario 4: `a.Next = &b`, `b.Next = &a`) dumps to completion
with the marker in its output. -/
theorem C3_strict_depth_revisit_cut (fuel : Nat) (H : Heap)
    (cfg : ConfigState) (s : DumpState) (m : List (Nat × Int)) (d pd : Int)
    (chain : List Nat) (ind : Nat) (ty : GoType) (addr : Nat)
    (hrec : m.lookup addr = some pd) (hlt : pd < d) :
    walkChain (fuel + 1) H m d chain ind (.vptr ty (some addr))
      = .ok ⟨false, true, ind, .vptr ty (some addr), m, chain ++ [addr]⟩ ∧
    (∀ pd2 : Int,
      (purgePtrs s.pointers s.depth).lookup addr = some pd2 →
      pd2 < s.depth →
      strStartsWith ty.str "v1." = false →
      strStartsWith ty.str "[]v1." = false →
      dumpPtr (fuel + 1 + 1) H cfg s (.vptr ty (some addr))
        = .ok (write (write (addImport
            (write (if s.depth = 0
              then write { s with pointers := purgePtrs s.pointers s.depth }
                "var _ = "
              else { s with pointers := purgePtrs s.pointers s.depth }) "")
            ty.pkgPath "") ty.str) circularMark)) ∧
    isOkB (dump 25 cycHeap cfgD initState cycVal) = true ∧
    strContains (outOf (dump 25 cycHeap cfgD initState cycVal)) circularMark
      = true := by
  refine ⟨walk_cut fuel H m d pd chain ind ty addr hrec hlt, ?_, ?_, ?_⟩
  · intro pd2 h1 h2 h3 h4
    rw [dumpPtr_succ]
    simp only [dumpPtrGo]
    rw [walk_cut fuel H (purgePtrs s.pointers s.depth) s.depth pd2 [] 0 ty
      addr h1 h2]
    simp only [exBind_ok, k8sType, typeOf, h3, h4, Bool.false_eq_true,
      if_false]
    rfl
  · rfl
  · rfl

/-- Witness for C3 amended: a one-level-deep state with the target address
recorded at depth 0 — the walk is cut at once and the rendering ends in the
circular marker. -/
theorem C3_witness :
    ([((5 : Nat), (0 : Int))].lookup 5 = some 0) ∧ ((0 : Int) < 1) ∧
    (walkChain 4 [] [(5, 0)] 1 [] 0 (.vptr tyPT (some 5))
      = .ok ⟨false, true, 0, .vptr tyPT (some 5), [(5, 0)], [5]⟩) ∧
    ((purgePtrs cw2s.pointers cw2s.depth).lookup 5 = some 0) ∧
    (dumpPtr 5 [] cfgD cw2s (.vptr tyPT (some 5))
      = .ok (write (write (addImport
          (write (if cw2s.depth = 0
            then write
              { cw2s with pointers := purgePtrs cw2s.pointers cw2s.depth }
              "var _ = "
            else
              { cw2s with
                pointers := purgePtrs cw2s.pointers cw2s.depth }) "")
          tyPT.pkgPath "") tyPT.str) circularMark)) :=
  ⟨by decide, by decide,
    (C3_strict_depth_revisit_cut 3 [] cfgD cw2s [(5, 0)] 1 0 [] 0 tyPT 5
      (by decide) (by decide)).1,
    by decide,
    (C3_strict_depth_revisit_cut 3 [] cfgD cw2s [(5, 0)] 1 0 [] 0 tyPT 5
      (by decide) (by decide)).2.1 0 (by decide) (by decide) (by decide)
      (by decide)⟩
